import Mathlib

/-!
# Verification of the `index-repo` ingest pipeline

A shallow embedding, in Lean 4, of the parts of the `index-repo` Rust
program that the specification's checked claims talk about:

* `src/cpio.rs`   — the streaming "new ASCII" cpio reader,
* `src/rpm.rs`    — the RPM lead/header reader and string-tag lookup,
* `src/db.rs`     — `like_from_wildcard` and the batched
  `persist_elf_symbols` write path,
* `src/http.rs`   — the permit discipline of `checked_fetch`,
* `src/bin/index-repo.rs` — `fetch_file`'s checksum-or-download policy.

Modelling conventions:

* A byte stream (`AsyncRead`) is a `List Nat` of octets; `read_exact`
  consumes from the front and fails (as tokio's `read_exact` does) when
  the stream is exhausted.
* Rust `usize`/`u64` values are `Nat`.  Where finite width is semantically
  relevant the source expression is kept: the mask `!3` (resp. `!7`) of a
  64-bit `usize` is `2 ^ 64 - 4` (resp. `2 ^ 64 - 8`), and the wrapping
  subtraction `size - 1` is `(size + (2 ^ 64 - 1)) % 2 ^ 64`.
* A Rust `String`/`&str` produced by `from_utf8` is represented by its
  byte list: `str::from_utf8` returns a view of the very same bytes, and
  Rust string equality is byte equality, so `from_utf8` is modelled as a
  UTF-8 validity check that returns the bytes unchanged.
* Fallible operations return `Except`; a Rust panic (slice index out of
  range) is a distinguished error value.
-/

namespace IndexRepo

/-- A byte stream: the sequence of octets not yet consumed. -/
abbrev Bytes := List Nat

/-- Errors of the embedded readers.  `eof` models `read_exact` hitting end
of input, `badMagic`/`badHex` model `nom` parse failures, `utf8` models
`str::from_utf8` rejection, and `sliceOOB` models a Rust slice-index panic. -/
inductive RErr where
  | eof
  | badMagic
  | badHex
  | utf8
  | sliceOOB
deriving DecidableEq, Repr

/-- `tokio_io::io::read_exact(a, vec![0u8; n])`: consume exactly `n` bytes
from the stream, returning the rest of the stream and the filled buffer. -/
def read_exact (a : Bytes) (n : Nat) : Except RErr (Bytes × Bytes) :=
  if n ≤ a.length then .ok (a.drop n, a.take n) else .error .eof

theorem read_exact_ok {a : Bytes} {n : Nat} {out : Bytes × Bytes}
    (h : read_exact a n = .ok out) :
    out.1 = a.drop n ∧ out.2 = a.take n ∧ n ≤ a.length ∧
      a.length = out.1.length + n ∧ out.2.length = n := by
  unfold read_exact at h
  split at h
  · cases h
    refine ⟨rfl, rfl, by assumption, ?_, ?_⟩
    · simp [List.length_drop]; omega
    · simp [List.length_take]; omega
  · cases h

/-- Aligning masks: `x &&& (2 ^ w - 2 ^ k)` clears the low `k` bits of an
`x` that fits in `w` bits.  This is the meaning of the Rust expressions
`x & !3` and `x & !7` on a 64-bit `usize`. -/
theorem land_mask_pow (x k w : Nat) (hkw : k ≤ w) (h : x < 2 ^ w) :
    x &&& (2 ^ w - 2 ^ k) = x - x % 2 ^ k := by
  have hmask : 2 ^ w - 2 ^ k = (2 ^ (w - k) - 1) <<< k := by
    rw [Nat.shiftLeft_eq, Nat.sub_mul, one_mul, ← pow_add,
      Nat.sub_add_cancel hkw]
  have hx : x - x % 2 ^ k = (x >>> k) <<< k := by
    rw [Nat.shiftRight_eq_div_pow, Nat.shiftLeft_eq]
    have h1 : x / 2 ^ k * 2 ^ k ≤ x := Nat.div_mul_le_self x (2 ^ k)
    have h2 := Nat.div_add_mod x (2 ^ k)
    rw [Nat.mul_comm] at h2
    omega
  rw [hmask, hx]
  apply Nat.eq_of_testBit_eq
  intro i
  rw [Nat.testBit_land, Nat.testBit_shiftLeft, Nat.testBit_shiftLeft,
    Nat.testBit_shiftRight, Nat.testBit_two_pow_sub_one]
  by_cases hik : k ≤ i
  · have h2 : k + (i - k) = i := by omega
    rw [h2]
    by_cases hiw : i < w
    · have : i - k < w - k := by omega
      simp [hik, this, ge_iff_le]
    · have hxi : x.testBit i = false := by
        apply Nat.testBit_eq_false_of_lt
        calc x < 2 ^ w := h
          _ ≤ 2 ^ i := Nat.pow_le_pow_right (by omega) (by omega)
      simp [hxi]
  · simp [hik, ge_iff_le]

/-- The cpio padding `((e + 3) & !3) - e`: it is smaller than 4 and pads
`e` to the next multiple of 4. -/
theorem pad4_props (e : Nat) (h : e + 3 < 2 ^ 64) :
    ((e + 3) &&& (2 ^ 64 - 4)) - e < 4 ∧
      (e + (((e + 3) &&& (2 ^ 64 - 4)) - e)) % 4 = 0 := by
  have h4 : (2 : Nat) ^ 64 - 4 = 2 ^ 64 - 2 ^ 2 := by norm_num
  have := land_mask_pow (e + 3) 2 64 (by omega) h
  rw [h4, this]
  have h2 : (e + 3) % 2 ^ 2 = (e + 3) % 4 := by norm_num
  rw [h2]
  omega

/-- The RPM padding `((pos + 7) & !7) - pos`: it is smaller than 8 and
pads `pos` to the next multiple of 8. -/
theorem pad8_props (e : Nat) (h : e + 7 < 2 ^ 64) :
    ((e + 7) &&& (2 ^ 64 - 8)) - e < 8 ∧
      (e + (((e + 7) &&& (2 ^ 64 - 8)) - e)) % 8 = 0 := by
  have h8 : (2 : Nat) ^ 64 - 8 = 2 ^ 64 - 2 ^ 3 := by norm_num
  have := land_mask_pow (e + 7) 3 64 (by omega) h
  rw [h8, this]
  have h2 : (e + 7) % 2 ^ 3 = (e + 7) % 8 := by norm_num
  rw [h2]
  omega

/-- Padding never exceeds its alignment gap: `((e + m) &&& mask) ≤ e + m`,
so the subtraction yields at most `m`. -/
theorem pad_le (e m mask : Nat) : ((e + m) &&& mask) - e ≤ m := by
  have : (e + m) &&& mask ≤ e + m := Nat.and_le_left
  omega

/-- Whether `b` is a UTF-8 continuation byte (`0x80..=0xBF`). -/
def isCont (b : Nat) : Bool := 0x80 ≤ b && b ≤ 0xbf

/-- Constraint on the second byte of a three-byte UTF-8 sequence headed by
`b` (rejecting overlong encodings after `0xE0` and surrogates after
`0xED`), as enforced by `str::from_utf8`. -/
def utf8Second3 (b b1 : Nat) : Bool :=
  if b = 0xe0 then 0xa0 ≤ b1 && b1 ≤ 0xbf
  else if b = 0xed then 0x80 ≤ b1 && b1 ≤ 0x9f
  else isCont b1

/-- Constraint on the second byte of a four-byte UTF-8 sequence headed by
`b` (rejecting overlong encodings after `0xF0` and values beyond
`U+10FFFF` after `0xF4`), as enforced by `str::from_utf8`. -/
def utf8Second4 (b b1 : Nat) : Bool :=
  if b = 0xf0 then 0x90 ≤ b1 && b1 ≤ 0xbf
  else if b = 0xf4 then 0x80 ≤ b1 && b1 ≤ 0x8f
  else isCont b1

/-- The UTF-8 validity check performed by Rust's `str::from_utf8`. -/
def validUtf8 : Bytes → Bool
  | [] => true
  | b :: rest =>
    if b ≤ 0x7f then validUtf8 rest
    else if b < 0xc2 then false
    else if b ≤ 0xdf then
      match rest with
      | b1 :: rest2 => isCont b1 && validUtf8 rest2
      | [] => false
    else if b ≤ 0xef then
      match rest with
      | b1 :: b2 :: rest3 => utf8Second3 b b1 && isCont b2 && validUtf8 rest3
      | _ => false
    else if b ≤ 0xf4 then
      match rest with
      | b1 :: b2 :: b3 :: rest4 =>
        utf8Second4 b b1 && isCont b2 && isCont b3 && validUtf8 rest4
      | _ => false
    else false

/-- `str::from_utf8`: a Rust `&str` is a validated view of the same bytes
and `&str` equality is byte equality, so the model returns the input bytes
on success. -/
def from_utf8 (bs : Bytes) : Option Bytes :=
  if validUtf8 bs then some bs else none

namespace Cpio

/-- Whether `b` is an ASCII hexadecimal digit, as accepted by
`u64::from_str_radix(s, 16)`. -/
def isHexDigit (b : Nat) : Bool :=
  (0x30 ≤ b && b ≤ 0x39) || (0x61 ≤ b && b ≤ 0x66) || (0x41 ≤ b && b ≤ 0x46)

/-- Numeric value of an ASCII hexadecimal digit. -/
def hexVal (b : Nat) : Nat :=
  if b ≤ 0x39 then b - 0x30 else if b ≤ 0x46 then b - 0x41 + 10 else b - 0x61 + 10

/-- `u64::from_str_radix(s, 16)` composed with the preceding
`str::from_utf8`: accepts an optional leading `'+'` followed by at least
one hex digit, and rejects values that overflow `u64`.  (Any byte string
passing the digit test is ASCII and hence valid UTF-8, so the two
fallible steps of `parse_u64` in `cpio.rs` collapse into this one test.) -/
def fromStrRadix16 (bs : Bytes) : Option Nat :=
  let ds := if bs.head? = some 0x2b then bs.tail else bs
  if ds ≠ [] ∧ ds.all isHexDigit then
    let v := ds.foldl (fun acc b => acc * 16 + hexVal b) 0
    if v < 2 ^ 64 then some v else none
  else none

/-- `parse_u64(i, n)` from `cpio.rs`: take `n` bytes and read them as a
hexadecimal `u64`, returning the remaining input. -/
def parse_u64 (bs : Bytes) (n : Nat) : Option (Bytes × Nat) :=
  if n ≤ bs.length then
    match fromStrRadix16 (bs.take n) with
    | some v => some (bs.drop n, v)
    | none => none
  else none

/-- The cpio "new ASCII" header, `cpio.rs` `Header` (the constant
`c_magic` field is left implicit). -/
structure Header where
  c_ino : Nat
  c_mode : Nat
  c_uid : Nat
  c_gid : Nat
  c_nlink : Nat
  c_mtime : Nat
  c_filesize : Nat
  c_devmajor : Nat
  c_devminor : Nat
  c_rdevmajor : Nat
  c_rdevminor : Nat
  c_namesize : Nat
  c_checksum : Nat
deriving DecidableEq, Repr

/-- `"070701"` in ASCII, the cpio header magic. -/
def HEADER_MAGIC : Bytes := [0x30, 0x37, 0x30, 0x37, 0x30, 0x31]

/-- The cpio header is 110 bytes. -/
def HEADER_SIZE : Nat := 110

/-- Parse `n` consecutive 8-hex-digit fields. -/
def parseHexFields : Nat → Bytes → Option (List Nat × Bytes)
  | 0, bs => some ([], bs)
  | n + 1, bs =>
    match parse_u64 bs 8 with
    | some (rest, v) =>
      match parseHexFields n rest with
      | some (vs, rest2) => some (v :: vs, rest2)
      | none => none
    | none => none

/-- `parse_header` from `cpio.rs`: magic tag followed by thirteen
8-hex-digit fields. -/
def parse_header (bs : Bytes) : Option Header :=
  if 6 ≤ bs.length ∧ bs.take 6 = HEADER_MAGIC then
    match parseHexFields 13 (bs.drop 6) with
    | some ([i, mo, u, g, nl, mt, fs, dmj, dmn, rmj, rmn, ns, ck], _) =>
      some ⟨i, mo, u, g, nl, mt, fs, dmj, dmn, rmj, rmn, ns, ck⟩
    | _ => none
  else none

/-- `cpio::read_header`: read 110 bytes and parse them, advancing `pos`
by `HEADER_SIZE`. -/
def read_header (a : Bytes) (pos : Nat) : Except RErr (Bytes × Nat × Header) :=
  match read_exact a HEADER_SIZE with
  | .error e => .error e
  | .ok (a, buf) =>
    match parse_header buf with
    | some header => .ok (a, pos + HEADER_SIZE, header)
    | none => .error .badMagic

/-- `cpio::read_name`: read `size` name bytes plus zero-padding to the
next multiple of 4 of the running position, then decode the first
`size - 1` bytes (the name without its NUL) as UTF-8.  The subtraction
`size - 1` is a wrapping `usize` subtraction, and the slice
`&name[..size - 1]` panics (`sliceOOB`) when the index exceeds the buffer
length — which is what happens when `size = 0`. -/
def read_name (a : Bytes) (pos size : Nat) : Except RErr (Bytes × Nat × Bytes) :=
  let e := pos + size
  let padding := ((e + 3) &&& (2 ^ 64 - 4)) - e
  match read_exact a (size + padding) with
  | .error err => .error err
  | .ok (a, name) =>
    let k := (size + (2 ^ 64 - 1)) % 2 ^ 64
    if k ≤ name.length then
      match from_utf8 (name.take k) with
      | some s => .ok (a, pos + size + padding, s)
      | none => .error .utf8
    else .error .sliceOOB

/-- `"TRAILER!!!"` in ASCII, the cpio end-of-stream sentinel. -/
def TRAILER : Bytes := [0x54, 0x52, 0x41, 0x49, 0x4c, 0x45, 0x52, 0x21, 0x21, 0x21]

/-- A cpio entry as produced by `read_entry_start`: header, name and the
peeked window of at most 8192 body bytes. -/
structure Entry where
  header : Header
  name : Bytes
  peek : Bytes
deriving DecidableEq, Repr

/-- `cpio::read_entry_start`: header, then name (and its padding), then —
unless the name is the trailer sentinel — a peek of
`min(c_filesize, 8192)` body bytes. -/
def read_entry_start (a : Bytes) (pos : Nat) :
    Except RErr (Bytes × Nat × Option Entry) :=
  match read_header a pos with
  | .error e => .error e
  | .ok (a, pos, header) =>
    match read_name a pos header.c_namesize with
    | .error e => .error e
    | .ok (a, pos, name) =>
      if name = TRAILER then .ok (a, pos, none)
      else
        let size := min header.c_filesize 8192
        match read_exact a size with
        | .error e => .error e
        | .ok (a, peek) => .ok (a, pos + size, some ⟨header, name, peek⟩)

/-- `cpio::read_entry_data`: complete the body by copying the peek and
reading the remaining `c_filesize - peek_len` bytes.  The copy
`data[..peek_len].copy_from_slice(..)` panics when the peek is longer
than the body buffer. -/
def read_entry_data (a : Bytes) (pos : Nat) (c_filesize : Nat) (peek : Bytes) :
    Except RErr (Bytes × Nat × Bytes) :=
  if peek.length ≤ c_filesize then
    match read_exact a (c_filesize - peek.length) with
    | .error e => .error e
    | .ok (a, rest) => .ok (a, pos + (c_filesize - peek.length), peek ++ rest)
  else .error .sliceOOB

/-- `cpio::read_entry_end`: consume the zero-padding that aligns the
running position to the next multiple of 4. -/
def read_entry_end (a : Bytes) (pos : Nat) : Except RErr (Bytes × Nat) :=
  let padding := ((pos + 3) &&& (2 ^ 64 - 4)) - pos
  match read_exact a padding with
  | .error e => .error e
  | .ok (a, _) => .ok (a, pos + padding)

end Cpio

namespace Cpio

/-- Characterization of a successful `read_header`. -/
theorem read_header_ok {a : Bytes} {pos : Nat} {out : Bytes × Nat × Header}
    (h : read_header a pos = .ok out) :
    out.2.1 = pos + HEADER_SIZE ∧ out.1 = a.drop HEADER_SIZE ∧
      a.length = out.1.length + HEADER_SIZE ∧
      parse_header (a.take HEADER_SIZE) = some out.2.2 := by
  unfold read_header at h
  split at h
  · cases h
  · rename_i p hre
    split at h
    · rename_i header hph
      cases h
      obtain ⟨h1, h2, h3, h4, h5⟩ := read_exact_ok hre
      subst h1 h2
      refine ⟨rfl, rfl, ?_, hph⟩
      show a.length = (a.drop HEADER_SIZE).length + HEADER_SIZE
      rw [List.length_drop]
      omega
    · cases h

/-- Inversion for `from_utf8`: success returns the same bytes, validated. -/
theorem from_utf8_some {bs out : Bytes} (h : from_utf8 bs = some out) :
    out = bs ∧ validUtf8 bs = true := by
  unfold from_utf8 at h
  split at h
  · cases h
    exact ⟨rfl, by assumption⟩
  · cases h

/-- Characterization of a successful `read_name`. -/
theorem read_name_ok {a : Bytes} {pos size : Nat} {out : Bytes × Nat × Bytes}
    (h : read_name a pos size = .ok out) :
    out.2.1 = pos + size + (((pos + size + 3) &&& (2 ^ 64 - 4)) - (pos + size)) ∧
      out.1 = a.drop (size + (((pos + size + 3) &&& (2 ^ 64 - 4)) - (pos + size))) ∧
      a.length = out.1.length +
        (size + (((pos + size + 3) &&& (2 ^ 64 - 4)) - (pos + size))) ∧
      out.2.2 = a.take ((size + (2 ^ 64 - 1)) % 2 ^ 64) ∧
      validUtf8 out.2.2 = true ∧
      (size + (2 ^ 64 - 1)) % 2 ^ 64 ≤
        size + (((pos + size + 3) &&& (2 ^ 64 - 4)) - (pos + size)) := by
  simp only [read_name] at h
  split at h
  · cases h
  · rename_i p hre
    split at h
    · rename_i hk
      split at h
      · rename_i s hs
        cases h
        obtain ⟨hv, hu⟩ := from_utf8_some hs
        rw [hv] at hs ⊢
        obtain ⟨h1, h2, h3, h4, h5⟩ := read_exact_ok hre
        subst h1 h2
        rw [h5] at hk
        refine ⟨rfl, rfl, ?_, ?_, ?_, hk⟩
        · dsimp only at h4 ⊢
          exact h4
        · dsimp only
          rw [List.take_take, Nat.min_eq_left hk]
        · dsimp only
          exact hu
      · cases h
    · cases h

/-- Evaluation of `read_name` on the success path: with `size ≥ 1`, enough
input, and a UTF-8-valid name, it consumes the name plus its padding and
returns the first `size - 1` bytes. -/
theorem read_name_eval (a : Bytes) (pos size : Nat) (hsz : 1 ≤ size)
    (hw : size < 2 ^ 64)
    (hlen : size + (((pos + size + 3) &&& (2 ^ 64 - 4)) - (pos + size)) ≤ a.length)
    (hval : validUtf8 (a.take (size - 1)) = true) :
    read_name a pos size = .ok
      (a.drop (size + (((pos + size + 3) &&& (2 ^ 64 - 4)) - (pos + size))),
       pos + size + (((pos + size + 3) &&& (2 ^ 64 - 4)) - (pos + size)),
       a.take (size - 1)) := by
  have h64 : (2 : Nat) ^ 64 = 18446744073709551616 := by norm_num
  have hk : (size + (2 ^ 64 - 1)) % 2 ^ 64 = size - 1 := by
    rw [h64] at hw ⊢
    omega
  simp only [read_name, read_exact, if_pos hlen, hk]
  have hlt : size - 1 ≤ (a.take (size + (((pos + size + 3) &&& (2 ^ 64 - 4)) -
      (pos + size)))).length := by
    rw [List.length_take]
    omega
  rw [if_pos hlt, List.take_take, Nat.min_eq_left (by omega), from_utf8,
    if_pos hval]

/-- `read_name` with `size = 0` can never succeed: the wrapped index
`0 - 1` always exceeds the buffer, so the call errors (with a slice panic
once the padding bytes could be read). -/
theorem read_name_zero (a : Bytes) (pos : Nat) :
    (∀ out, read_name a pos 0 ≠ .ok out) ∧
      ((((pos + 3) &&& (2 ^ 64 - 4)) - pos) ≤ a.length →
        read_name a pos 0 = .error .sliceOOB) := by
  have h64 : (2 : Nat) ^ 64 = 18446744073709551616 := by norm_num
  have hpad : ((pos + 0 + 3) &&& (2 ^ 64 - 4)) - (pos + 0) ≤ 3 := pad_le (pos + 0) 3 _
  constructor
  · intro out h
    simp only [read_name] at h
    split at h
    · cases h
    · rename_i p hre
      obtain ⟨h1, h2, h3, h4, h5⟩ := read_exact_ok hre
      split at h
      · rename_i hc
        exfalso
        rw [h5, h64] at hc
        rw [h64] at hpad
        omega
      · cases h
  · intro hle
    have hle2 : 0 + (((pos + 0 + 3) &&& (2 ^ 64 - 4)) - (pos + 0)) ≤ a.length := by
      simpa using hle
    have hre : read_exact a (0 + (((pos + 0 + 3) &&& (2 ^ 64 - 4)) - (pos + 0))) =
        .ok (a.drop (0 + (((pos + 0 + 3) &&& (2 ^ 64 - 4)) - (pos + 0))),
             a.take (0 + (((pos + 0 + 3) &&& (2 ^ 64 - 4)) - (pos + 0)))) := by
      unfold read_exact
      rw [if_pos hle2]
    simp only [read_name, hre]
    have hno : ¬((0 + (2 ^ 64 - 1)) % 2 ^ 64 ≤
        (a.take (0 + (((pos + 0 + 3) &&& (2 ^ 64 - 4)) - (pos + 0)))).length) := by
      rw [List.length_take, h64]
      rw [h64] at hpad
      omega
    rw [if_neg hno]

/-- Inversion for a successful `read_entry_start`: it decomposes into a
header read, a name read, and — when the name is not the trailer — a peek
of `min(c_filesize, 8192)` body bytes. -/
theorem read_entry_start_ok {a : Bytes} {pos : Nat}
    {out : Bytes × Nat × Option Entry} (h : read_entry_start a pos = .ok out) :
    ∃ mid nm,
      read_header a pos = .ok mid ∧
      read_name mid.1 mid.2.1 mid.2.2.c_namesize = .ok nm ∧
      ((out.2.2 = none ∧ nm.2.2 = TRAILER ∧ out.1 = nm.1 ∧ out.2.1 = nm.2.1) ∨
        (∃ e, out.2.2 = some e ∧ nm.2.2 ≠ TRAILER ∧
          e.header = mid.2.2 ∧ e.name = nm.2.2 ∧
          e.peek = nm.1.take (min mid.2.2.c_filesize 8192) ∧
          min mid.2.2.c_filesize 8192 ≤ nm.1.length ∧
          out.1 = nm.1.drop (min mid.2.2.c_filesize 8192) ∧
          out.2.1 = nm.2.1 + min mid.2.2.c_filesize 8192)) := by
  unfold read_entry_start at h
  split at h
  · cases h
  · rename_i a1 pos1 hdr hh
    split at h
    · cases h
    · rename_i a2 pos2 nm2 hn
      refine ⟨(a1, pos1, hdr), (a2, pos2, nm2), hh, hn, ?_⟩
      split at h
      · rename_i ht
        cases h
        exact Or.inl ⟨rfl, ht, rfl, rfl⟩
      · rename_i ht
        simp only [] at h
        split at h
        · cases h
        · rename_i p hp
          cases h
          obtain ⟨h1, h2, h3, h4, h5⟩ := read_exact_ok hp
          subst h1 h2
          exact Or.inr ⟨_, rfl, ht, rfl, rfl, rfl, h3, rfl, rfl⟩

end Cpio

/-- C2: every cpio operation returns its input position plus the number of
bytes it consumed — `read_header` adds 110; `read_name` adds
`c_namesize` plus its padding; `read_entry_start` additionally adds the
peek length `min(c_filesize, 8192)`; `read_entry_data` adds
`c_filesize` minus the peek length; `read_entry_end` adds its padding —
and the two zero-paddings align the running byte count (measured from the
start of the cpio stream) to the next multiple of 4. -/
theorem cpio_pos_arith :
    (∀ a pos out, Cpio.read_header a pos = .ok out →
      out.2.1 = pos + 110 ∧ a.length = out.1.length + 110)
  ∧ (∀ a pos size out, Cpio.read_name a pos size = .ok out →
      out.2.1 = pos + size + (((pos + size + 3) &&& (2 ^ 64 - 4)) - (pos + size))
      ∧ a.length = out.1.length +
          (size + (((pos + size + 3) &&& (2 ^ 64 - 4)) - (pos + size)))
      ∧ (pos + size + 3 < 2 ^ 64 →
          out.2.1 % 4 = 0 ∧ ((pos + size + 3) &&& (2 ^ 64 - 4)) - (pos + size) < 4))
  ∧ (∀ a pos out e, Cpio.read_entry_start a pos = .ok out → out.2.2 = some e →
      ∃ mid nm, Cpio.read_header a pos = .ok mid
        ∧ Cpio.read_name mid.1 mid.2.1 mid.2.2.c_namesize = .ok nm
        ∧ out.2.1 = nm.2.1 + min mid.2.2.c_filesize 8192
        ∧ nm.1.length = out.1.length + min mid.2.2.c_filesize 8192)
  ∧ (∀ a pos fsz peek out, Cpio.read_entry_data a pos fsz peek = .ok out →
      out.2.1 = pos + (fsz - peek.length)
      ∧ a.length = out.1.length + (fsz - peek.length))
  ∧ (∀ a pos out, Cpio.read_entry_end a pos = .ok out →
      out.2 = pos + (((pos + 3) &&& (2 ^ 64 - 4)) - pos)
      ∧ a.length = out.1.length + (((pos + 3) &&& (2 ^ 64 - 4)) - pos)
      ∧ (pos + 3 < 2 ^ 64 →
          out.2 % 4 = 0 ∧ ((pos + 3) &&& (2 ^ 64 - 4)) - pos < 4)) := by
  refine ⟨?_, ?_, ?_, ?_, ?_⟩
  · intro a pos out h
    obtain ⟨h1, _, h3, _⟩ := Cpio.read_header_ok h
    exact ⟨h1, h3⟩
  · intro a pos size out h
    obtain ⟨h1, _, h3, _, _, _⟩ := Cpio.read_name_ok h
    refine ⟨h1, h3, ?_⟩
    intro hb
    obtain ⟨hp1, hp2⟩ := pad4_props (pos + size) hb
    rw [h1]
    omega
  · intro a pos out e h he
    obtain ⟨mid, nm, hh, hn, hcase⟩ := Cpio.read_entry_start_ok h
    refine ⟨mid, nm, hh, hn, ?_⟩
    rcases hcase with ⟨hnone, -, -, -⟩ | ⟨e', -, -, -, -, -, hle, hdrop, hpos⟩
    · rw [hnone] at he
      cases he
    · refine ⟨hpos, ?_⟩
      rw [hdrop, List.length_drop]
      omega
  · intro a pos fsz peek out h
    unfold Cpio.read_entry_data at h
    split at h
    · split at h
      · cases h
      · rename_i p hre
        cases h
        obtain ⟨h1, h2, h3, h4, h5⟩ := read_exact_ok hre
        subst h1 h2
        exact ⟨rfl, by dsimp only at h4 ⊢; exact h4⟩
    · cases h
  · intro a pos out h
    simp only [Cpio.read_entry_end] at h
    split at h
    · cases h
    · rename_i p hre
      cases h
      obtain ⟨h1, h2, h3, h4, h5⟩ := read_exact_ok hre
      subst h1 h2
      refine ⟨rfl, by dsimp only at h4 ⊢; exact h4, ?_⟩
      intro hb
      obtain ⟨hp1, hp2⟩ := pad4_props pos hb
      exact ⟨hp2, hp1⟩

/-- C3: a successful `read_entry_start` returns `none` exactly when the
parsed entry name is `"TRAILER!!!"`; otherwise it returns an entry whose
peek buffer holds exactly `min(c_filesize, 8192)` bytes of the entry
body. -/
theorem read_entry_start_trailer_spec :
    ∀ a pos out, Cpio.read_entry_start a pos = .ok out →
      ∃ mid nm,
        Cpio.read_header a pos = .ok mid ∧
        Cpio.read_name mid.1 mid.2.1 mid.2.2.c_namesize = .ok nm ∧
        (out.2.2 = none ↔ nm.2.2 = Cpio.TRAILER) ∧
        (∀ e, out.2.2 = some e →
          e.header = mid.2.2 ∧ e.name = nm.2.2 ∧
          e.peek.length = min mid.2.2.c_filesize 8192 ∧
          e.peek = nm.1.take (min mid.2.2.c_filesize 8192)) := by
  intro a pos out h
  obtain ⟨mid, nm, hh, hn, hcase⟩ := Cpio.read_entry_start_ok h
  refine ⟨mid, nm, hh, hn, ?_, ?_⟩
  · rcases hcase with ⟨hnone, ht, -, -⟩ | ⟨e', hsome, ht, -⟩
    · simp [hnone, ht]
    · rw [hsome]
      simp only [iff_false, ht]
      intro hc
      cases hc
  · intro e he
    rcases hcase with ⟨hnone, -, -, -⟩ | ⟨e', hsome, -, hhd, hnm, hpk, hle, -⟩
    · rw [hnone] at he
      cases he
    · rw [hsome] at he
      cases he
      refine ⟨hhd, hnm, ?_, hpk⟩
      rw [hpk, List.length_take]
      omega

/-- C10: `read_name` succeeds for every `size ≥ 1` (given enough input and
a valid UTF-8 name), consuming `size` plus pad-to-4 bytes and returning
the first `size - 1` bytes as the name — so `c_namesize = 1` is accepted
and yields the empty name — while `size = 0` can never succeed: the
unguarded `size - 1` wraps around and the name slice panics. -/
theorem read_name_size_spec :
    (∀ a pos size, 1 ≤ size → size < 2 ^ 64 →
      size + (((pos + size + 3) &&& (2 ^ 64 - 4)) - (pos + size)) ≤ a.length →
      validUtf8 (a.take (size - 1)) = true →
      Cpio.read_name a pos size = .ok
        (a.drop (size + (((pos + size + 3) &&& (2 ^ 64 - 4)) - (pos + size))),
         pos + size + (((pos + size + 3) &&& (2 ^ 64 - 4)) - (pos + size)),
         a.take (size - 1)))
  ∧ (∀ a pos, 1 + (((pos + 1 + 3) &&& (2 ^ 64 - 4)) - (pos + 1)) ≤ a.length →
      Cpio.read_name a pos 1 = .ok
        (a.drop (1 + (((pos + 1 + 3) &&& (2 ^ 64 - 4)) - (pos + 1))),
         pos + 1 + (((pos + 1 + 3) &&& (2 ^ 64 - 4)) - (pos + 1)), []))
  ∧ (∀ a pos out, Cpio.read_name a pos 0 ≠ .ok out)
  ∧ (∀ a pos, (((pos + 3) &&& (2 ^ 64 - 4)) - pos) ≤ a.length →
      Cpio.read_name a pos 0 = .error .sliceOOB) := by
  refine ⟨?_, ?_, fun a pos => (Cpio.read_name_zero a pos).1,
    fun a pos => (Cpio.read_name_zero a pos).2⟩
  · intro a pos size h1 h2 h3 h4
    exact Cpio.read_name_eval a pos size h1 h2 h3 h4
  · intro a pos hlen
    have := Cpio.read_name_eval a pos 1 (by omega) (by norm_num) hlen (by rfl)
    simpa using this

/-- Eight ASCII `'0'` digits, a zero-valued cpio header field. -/
def hex0 : Bytes := [0x30, 0x30, 0x30, 0x30, 0x30, 0x30, 0x30, 0x30]

/-- A concrete cpio header: all fields zero except `c_filesize = 3` and
`c_namesize = 2`. -/
def exHeader : Bytes :=
  Cpio.HEADER_MAGIC ++ hex0 ++ hex0 ++ hex0 ++ hex0 ++ hex0 ++ hex0
    ++ [0x30, 0x30, 0x30, 0x30, 0x30, 0x30, 0x30, 0x33]
    ++ hex0 ++ hex0 ++ hex0 ++ hex0
    ++ [0x30, 0x30, 0x30, 0x30, 0x30, 0x30, 0x30, 0x32]
    ++ hex0

/-- The parsed form of `exHeader`. -/
def exHdrVal : Cpio.Header := ⟨0, 0, 0, 0, 0, 0, 3, 0, 0, 0, 0, 2, 0⟩

/-- A concrete one-entry cpio stream: `exHeader`, the name `"a\x00"`
(no padding needed at offset 110 + 2 = 112), and a 3-byte body. -/
def exStream : Bytes := exHeader ++ [0x61, 0x00] ++ [0x01, 0x02, 0x03]

/-- Witness for C2: the position arithmetic evaluated on concrete calls. -/
theorem cpio_pos_arith_witness :
    (Cpio.read_header exStream 0 = .ok (exStream.drop 110, 110, exHdrVal)
      ∧ (110 : Nat) = 0 + 110)
    ∧ (Cpio.read_name [0x61, 0x00, 0x01, 0x02, 0x03] 110 2 =
          .ok ([0x01, 0x02, 0x03], 112, [0x61])
      ∧ (112 : Nat) = 110 + 2 + (((110 + 2 + 3) &&& (2 ^ 64 - 4)) - (110 + 2))
      ∧ (112 : Nat) % 4 = 0)
    ∧ (Cpio.read_entry_data ([] : Bytes) 115 3 [0x01, 0x02, 0x03] =
          .ok ([], 115, [0x01, 0x02, 0x03])
      ∧ (115 : Nat) = 115 + (3 - ([0x01, 0x02, 0x03] : Bytes).length))
    ∧ (Cpio.read_entry_end [0x00] 115 = .ok ([], 116)
      ∧ (116 : Nat) = 115 + (((115 + 3) &&& (2 ^ 64 - 4)) - 115)
      ∧ (116 : Nat) % 4 = 0) := by
  have h1 : Cpio.read_header exStream 0 = .ok (exStream.drop 110, 110, exHdrVal) := by
    rfl
  have h2 : Cpio.read_name [0x61, 0x00, 0x01, 0x02, 0x03] 110 2 =
      .ok ([0x01, 0x02, 0x03], 112, [0x61]) := by rfl
  have h3 : Cpio.read_entry_data ([] : Bytes) 115 3 [0x01, 0x02, 0x03] =
      .ok ([], 115, [0x01, 0x02, 0x03]) := by rfl
  have h4 : Cpio.read_entry_end [0x00] 115 = .ok ([], 116) := by rfl
  have c1 := (cpio_pos_arith.1 exStream 0 _ h1).1
  have c2 := cpio_pos_arith.2.1 [0x61, 0x00, 0x01, 0x02, 0x03] 110 2 _ h2
  have c3 := cpio_pos_arith.2.2.2.1 ([] : Bytes) 115 3 [0x01, 0x02, 0x03] _ h3
  have c4 := cpio_pos_arith.2.2.2.2 [0x00] 115 _ h4
  exact ⟨⟨h1, c1⟩, ⟨h2, c2.1, (c2.2.2 (by norm_num)).1⟩, ⟨h3, c3.1⟩,
    ⟨h4, c4.1, (c4.2.2 (by norm_num)).1⟩⟩

/-- Witness for C3: on the concrete stream the entry is returned with a
full 3-byte peek, and the name is not the trailer. -/
theorem read_entry_start_trailer_witness :
    Cpio.read_entry_start exStream 0 =
        .ok ([], 115, some ⟨exHdrVal, [0x61], [0x01, 0x02, 0x03]⟩)
    ∧ (⟨exHdrVal, [0x61], [0x01, 0x02, 0x03]⟩ : Cpio.Entry).peek.length =
        min exHdrVal.c_filesize 8192 := by
  have h : Cpio.read_entry_start exStream 0 =
      .ok ([], 115, some ⟨exHdrVal, [0x61], [0x01, 0x02, 0x03]⟩) := by rfl
  obtain ⟨mid, nm, hh, hn, hiff, hsome⟩ := read_entry_start_trailer_spec exStream 0 _ h
  have hc := hsome ⟨exHdrVal, [0x61], [0x01, 0x02, 0x03]⟩ rfl
  have hL := hc.2.2.1
  have hH : (⟨exHdrVal, [0x61], [0x01, 0x02, 0x03]⟩ : Cpio.Entry).header = mid.2.2 :=
    hc.1
  refine ⟨h, ?_⟩
  rw [hL, ← hH]

/-- Witness for C10: `c_namesize = 2` reads the one-byte name `"a"`,
`c_namesize = 1` reads the empty name, and `c_namesize = 0` panics. -/
theorem read_name_size_witness :
    Cpio.read_name [0x61, 0x00] 110 2 = .ok ([], 112, [0x61])
    ∧ Cpio.read_name [0x00] 111 1 = .ok ([], 112, [])
    ∧ Cpio.read_name ([] : Bytes) 0 0 = .error .sliceOOB := by
  have h1 := read_name_size_spec.1 [0x61, 0x00] 110 2 (by norm_num) (by norm_num)
    (by decide) (by decide)
  have h2 := read_name_size_spec.2.1 [0x00] 111 (by decide)
  have h3 := read_name_size_spec.2.2.2 ([] : Bytes) 0 (by decide)
  refine ⟨?_, ?_, h3⟩
  · rw [h1]
    rfl
  · rw [h2]
    rfl

namespace Rpm

/-- `nom`'s `be_u32`: four big-endian bytes. -/
def be_u32 (bs : Bytes) : Option (Bytes × Nat) :=
  match bs with
  | b0 :: b1 :: b2 :: b3 :: rest =>
    some (rest, ((b0 * 256 + b1) * 256 + b2) * 256 + b3)
  | _ => none

/-- `rpm.rs` `Header`: magic (implicit), version, reserved, index entry
count and store size. -/
structure Header where
  version : Nat
  reserved : Bytes
  index_entry_count : Nat
  store_size : Nat
deriving DecidableEq, Repr

/-- The RPM header magic `8E AD E8`. -/
def HEADER_MAGIC : Bytes := [0x8e, 0xad, 0xe8]

/-- The RPM header is 16 bytes. -/
def HEADER_SIZE : Nat := 16

/-- `parse_header` from `rpm.rs`: magic, version byte, four reserved
bytes, then two big-endian `u32`s. -/
def parse_header (bs : Bytes) : Option Header :=
  match bs with
  | m0 :: m1 :: m2 :: version :: r0 :: r1 :: r2 :: r3 :: rest =>
    if [m0, m1, m2] = HEADER_MAGIC then
      match be_u32 rest with
      | some (rest1, index_entry_count) =>
        match be_u32 rest1 with
        | some (_, store_size) =>
          some ⟨version, [r0, r1, r2, r3], index_entry_count, store_size⟩
        | none => none
      | none => none
    else none
  | _ => none

/-- `rpm::read_header`: first consume `((pos + 7) & !7) - pos` padding
bytes, then 16 header bytes, returning `pos + padding + 16`. -/
def read_header (a : Bytes) (pos : Nat) : Except RErr (Bytes × Nat × Header) :=
  let padding := ((pos + 7) &&& (2 ^ 64 - 8)) - pos
  match read_exact a padding with
  | .error e => .error e
  | .ok (a, _) =>
    match read_exact a HEADER_SIZE with
    | .error e => .error e
    | .ok (a, buf) =>
      match parse_header buf with
      | some header => .ok (a, pos + padding + HEADER_SIZE, header)
      | none => .error .badMagic

/-- `rpm.rs` `IndexEntry`. -/
structure IndexEntry where
  tag : Nat
  tpe : Nat
  offset : Nat
  count : Nat
deriving DecidableEq, Repr

/-- An index entry is 16 bytes. -/
def INDEX_ENTRY_SIZE : Nat := 16

/-- `parse_index_entry` from `rpm.rs`: four big-endian `u32`s. -/
def parse_index_entry (bs : Bytes) : Option IndexEntry :=
  match be_u32 bs with
  | some (r1, tag) =>
    match be_u32 r1 with
    | some (r2, tpe) =>
      match be_u32 r2 with
      | some (r3, offset) =>
        match be_u32 r3 with
        | some (_, count) => some ⟨tag, tpe, offset, count⟩
        | none => none
      | none => none
    | none => none
  | none => none

/-- `rpm::read_index_entry`: 16 bytes, advancing `pos` by 16. -/
def read_index_entry (a : Bytes) (pos : Nat) :
    Except RErr (Bytes × Nat × IndexEntry) :=
  match read_exact a INDEX_ENTRY_SIZE with
  | .error e => .error e
  | .ok (a, buf) =>
    match parse_index_entry buf with
    | some entry => .ok (a, pos + INDEX_ENTRY_SIZE, entry)
    | none => .error .badMagic

/-- `HashMap::insert` on the tag-keyed index-entry map, modelled as a
function update (later entries with the same tag overwrite earlier ones,
as in `index_entries.insert(index_entry.tag, index_entry)`). -/
def mapInsert (m : Nat → Option IndexEntry) (k : Nat) (v : IndexEntry) :
    Nat → Option IndexEntry :=
  fun t => if t = k then some v else m t

/-- The fold in `read_full_header` over `0..index_entry_count`, reading
one index entry at a time into the map. -/
def read_index_entries : Nat → Bytes → Nat → (Nat → Option IndexEntry) →
    Except RErr (Bytes × Nat × (Nat → Option IndexEntry))
  | 0, a, pos, m => .ok (a, pos, m)
  | n + 1, a, pos, m =>
    match read_index_entry a pos with
    | .error e => .error e
    | .ok (a, pos, entry) => read_index_entries n a pos (mapInsert m entry.tag entry)

/-- `rpm.rs` `FullHeader`: header, tag-keyed index entries and the store. -/
structure FullHeader where
  header : Header
  index_entries : Nat → Option IndexEntry
  store : Bytes

/-- `rpm::read_full_header`: header (with pad-to-8), then
`index_entry_count * 16` bytes of index entries, then `store_size` bytes
of store, advancing the position by every byte consumed. -/
def read_full_header (a : Bytes) (pos : Nat) :
    Except RErr (Bytes × Nat × FullHeader) :=
  match read_header a pos with
  | .error e => .error e
  | .ok (a, pos, header) =>
    match read_index_entries header.index_entry_count a pos (fun _ => none) with
    | .error e => .error e
    | .ok (a, pos, index_entries) =>
      match read_exact a header.store_size with
      | .error e => .error e
      | .ok (a, store) =>
        .ok (a, pos + header.store_size, ⟨header, index_entries, store⟩)

/-- Errors of `FullHeader::get_string_tag`. -/
inductive StrTagErr where
  | incorrectType
  | pastEnd
  | malformedUtf8
deriving DecidableEq, Repr

/-- `FullHeader::get_string_tag`: absent tag returns the default; the
entry must have type 6 and an offset strictly inside the store; the value
is the store suffix up to the first zero byte, decoded as UTF-8. -/
def get_string_tag (fh : FullHeader) (tag : Nat) (dflt : Bytes) :
    Except StrTagErr Bytes :=
  match fh.index_entries tag with
  | none => .ok dflt
  | some entry =>
    if entry.tpe ≠ 6 then .error .incorrectType
    else if fh.store.length ≤ entry.offset then .error .pastEnd
    else
      match from_utf8 ((fh.store.drop entry.offset).takeWhile (fun b => b ≠ 0)) with
      | some s => .ok s
      | none => .error .malformedUtf8

/-- `"cpio"` in ASCII, the default for payload-format tag 1124. -/
def CPIO_BYTES : Bytes := [0x63, 0x70, 0x69, 0x6f]

/-- `"gzip"` in ASCII, the default for payload-coding tag 1125. -/
def GZIP_BYTES : Bytes := [0x67, 0x7a, 0x69, 0x70]

/-- Position/consumption of a successful `read_header`. -/
theorem read_header_consumes {a : Bytes} {pos : Nat} {out : Bytes × Nat × Header}
    (h : read_header a pos = .ok out) :
    out.2.1 = pos + (((pos + 7) &&& (2 ^ 64 - 8)) - pos) + HEADER_SIZE ∧
      a.length = out.1.length + ((((pos + 7) &&& (2 ^ 64 - 8)) - pos) + HEADER_SIZE) := by
  simp only [read_header] at h
  split at h
  · cases h
  · rename_i p1 hre1
    split at h
    · cases h
    · rename_i p2 hre2
      split at h
      · rename_i hph
        cases h
        obtain ⟨g1, g2, g3, g4, g5⟩ := read_exact_ok hre1
        obtain ⟨k1, k2, k3, k4, k5⟩ := read_exact_ok hre2
        subst g1 k1
        refine ⟨rfl, ?_⟩
        dsimp only at g4 k4 ⊢
        omega
      · cases h

/-- Position/consumption of the index-entry fold. -/
theorem read_index_entries_ok :
    ∀ (n : Nat) (a : Bytes) (pos : Nat) (m : Nat → Option IndexEntry)
      (out : Bytes × Nat × (Nat → Option IndexEntry)),
      read_index_entries n a pos m = .ok out →
      out.2.1 = pos + 16 * n ∧ a.length = out.1.length + 16 * n := by
  intro n
  induction n with
  | zero =>
    intro a pos m out h
    cases h
    simp
  | succ k ih =>
    intro a pos m out h
    simp only [read_index_entries] at h
    split at h
    · cases h
    · rename_i a1 pos1 entry hone
      have hstep : pos1 = pos + 16 ∧ a.length = a1.length + 16 := by
        simp only [read_index_entry] at hone
        split at hone
        · cases hone
        · rename_i p hre
          split at hone
          · cases hone
            obtain ⟨g1, g2, g3, g4, g5⟩ := read_exact_ok hre
            subst g1
            dsimp only at g4
            exact ⟨rfl, g4⟩
          · cases hone
      obtain ⟨hrec1, hrec2⟩ := ih a1 pos1 (mapInsert m entry.tag entry) out h
      constructor
      · rw [hrec1, hstep.1]
        ring
      · rw [hstep.2, hrec2]
        ring

end Rpm

/-- C4: `rpm::read_header` at any position first consumes
`((pos + 7) & !7) - pos` padding bytes (padding to the next multiple of
8), then 16 header bytes, and returns `pos + padding + 16`; this pad-to-8
rule is applied on every call to `read_header`, hence also on the
main-header read that follows the signature header; `read_full_header`
then consumes `index_entry_count * 16` bytes of index entries and
`store_size` bytes of store, advancing the position by the total number
of bytes consumed. -/
theorem rpm_read_header_padding :
    (∀ a pos out, Rpm.read_header a pos = .ok out →
      out.2.1 = pos + (((pos + 7) &&& (2 ^ 64 - 8)) - pos) + 16
      ∧ a.length = out.1.length + ((((pos + 7) &&& (2 ^ 64 - 8)) - pos) + 16)
      ∧ (pos + 7 < 2 ^ 64 →
          (pos + (((pos + 7) &&& (2 ^ 64 - 8)) - pos)) % 8 = 0
          ∧ ((pos + 7) &&& (2 ^ 64 - 8)) - pos < 8))
  ∧ (∀ a pos out, Rpm.read_full_header a pos = .ok out →
      out.2.1 = pos + (((pos + 7) &&& (2 ^ 64 - 8)) - pos) + 16
          + 16 * out.2.2.header.index_entry_count + out.2.2.header.store_size
      ∧ a.length = out.1.length + ((((pos + 7) &&& (2 ^ 64 - 8)) - pos) + 16
          + 16 * out.2.2.header.index_entry_count + out.2.2.header.store_size)) := by
  constructor
  · intro a pos out h
    obtain ⟨h1, h2⟩ := Rpm.read_header_consumes h
    refine ⟨h1, h2, ?_⟩
    intro hb
    obtain ⟨hp1, hp2⟩ := pad8_props pos hb
    exact ⟨hp2, hp1⟩
  · intro a pos out h
    simp only [Rpm.read_full_header] at h
    split at h
    · cases h
    · rename_i a1 pos1 header hh
      split at h
      · cases h
      · rename_i a2 pos2 entries hents
        split at h
        · cases h
        · rename_i p hre
          cases h
          obtain ⟨h1, h2⟩ := Rpm.read_header_consumes hh
          obtain ⟨e1, e2⟩ := Rpm.read_index_entries_ok _ _ _ _ _ hents
          obtain ⟨g1, g2, g3, g4, g5⟩ := read_exact_ok hre
          subst g1
          dsimp only [Rpm.HEADER_SIZE] at h1 h2
          dsimp only at h1 h2 e1 e2 g4 ⊢
          omega

/-- C5: `get_string_tag(tag, default)` returns the default when no index
entry has the tag (so tag 1124 defaults to `"cpio"` and tag 1125 to
`"gzip"`); it errors when the entry's type is not 6 or when its offset is
not strictly below the store length; otherwise it returns the store bytes
from the offset up to (excluding) the first zero byte, decoded as UTF-8,
erroring on invalid UTF-8. -/
theorem get_string_tag_spec :
    (∀ fh tag dflt, fh.index_entries tag = none →
      Rpm.get_string_tag fh tag dflt = .ok dflt)
  ∧ (∀ fh : Rpm.FullHeader, fh.index_entries 1124 = none →
      Rpm.get_string_tag fh 1124 Rpm.CPIO_BYTES = .ok Rpm.CPIO_BYTES)
  ∧ (∀ fh : Rpm.FullHeader, fh.index_entries 1125 = none →
      Rpm.get_string_tag fh 1125 Rpm.GZIP_BYTES = .ok Rpm.GZIP_BYTES)
  ∧ (∀ fh tag dflt e, fh.index_entries tag = some e → e.tpe ≠ 6 →
      Rpm.get_string_tag fh tag dflt = .error .incorrectType)
  ∧ (∀ fh tag dflt e, fh.index_entries tag = some e → e.tpe = 6 →
      fh.store.length ≤ e.offset →
      Rpm.get_string_tag fh tag dflt = .error .pastEnd)
  ∧ (∀ fh tag dflt e, fh.index_entries tag = some e → e.tpe = 6 →
      e.offset < fh.store.length →
      validUtf8 ((fh.store.drop e.offset).takeWhile (fun b => b ≠ 0)) = true →
      Rpm.get_string_tag fh tag dflt =
        .ok ((fh.store.drop e.offset).takeWhile (fun b => b ≠ 0)))
  ∧ (∀ fh tag dflt e, fh.index_entries tag = some e → e.tpe = 6 →
      e.offset < fh.store.length →
      validUtf8 ((fh.store.drop e.offset).takeWhile (fun b => b ≠ 0)) = false →
      Rpm.get_string_tag fh tag dflt = .error .malformedUtf8) := by
  have base : ∀ fh tag dflt, (fh : Rpm.FullHeader).index_entries tag = none →
      Rpm.get_string_tag fh tag dflt = .ok dflt := by
    intro fh tag dflt h
    simp only [Rpm.get_string_tag, h]
  refine ⟨base, fun fh h => base fh 1124 Rpm.CPIO_BYTES h,
    fun fh h => base fh 1125 Rpm.GZIP_BYTES h, ?_, ?_, ?_, ?_⟩
  · intro fh tag dflt e he ht
    simp only [Rpm.get_string_tag, he, if_pos ht]
  · intro fh tag dflt e he ht hoff
    rw [Rpm.get_string_tag, he]
    dsimp only
    rw [if_neg (by simp [ht]), if_pos hoff]
  · intro fh tag dflt e he ht hoff hv
    rw [Rpm.get_string_tag, he]
    dsimp only
    rw [if_neg (by simp [ht]), if_neg (by omega), from_utf8, if_pos hv]
  · intro fh tag dflt e he ht hoff hv
    rw [Rpm.get_string_tag, he]
    dsimp only
    rw [if_neg (by simp [ht]), if_neg (by omega), from_utf8,
      if_neg (by rw [hv]; simp)]

/-- A concrete 16-byte RPM header: version 1, one index entry, a 4-byte
store. -/
def exRpmHdr16 : Bytes :=
  [0x8e, 0xad, 0xe8, 1, 0, 0, 0, 0, 0, 0, 0, 1, 0, 0, 0, 4]

/-- A concrete RPM full-header byte stream: header, one index entry
(tag 1124, type 6, offset 0, count 1), and the store `"cpio"`. -/
def exRpm : Bytes :=
  exRpmHdr16 ++ [0, 0, 0x04, 0x64, 0, 0, 0, 6, 0, 0, 0, 0, 0, 0, 0, 1]
    ++ [0x63, 0x70, 0x69, 0x6f]

/-- The parsed form of `exRpm`. -/
def exFullHdr : Rpm.FullHeader :=
  ⟨⟨1, [0, 0, 0, 0], 1, 4⟩,
   Rpm.mapInsert (fun _ => none) 1124 ⟨1124, 6, 0, 1⟩,
   [0x63, 0x70, 0x69, 0x6f]⟩

/-- Witness for C4: a header read at the unaligned position 1 consumes 7
padding bytes, and a full-header read at position 0 advances by
`0 + 16 + 16 * 1 + 4 = 36`. -/
theorem rpm_read_header_padding_witness :
    (Rpm.read_header (List.replicate 7 0 ++ exRpmHdr16) 1 =
        .ok ([], 24, ⟨1, [0, 0, 0, 0], 1, 4⟩)
      ∧ (24 : Nat) = 1 + (((1 + 7) &&& (2 ^ 64 - 8)) - 1) + 16
      ∧ (1 + (((1 + 7) &&& (2 ^ 64 - 8)) - 1)) % 8 = 0)
    ∧ (Rpm.read_full_header exRpm 0 = .ok ([], 36, exFullHdr)
      ∧ (36 : Nat) = 0 + (((0 + 7) &&& (2 ^ 64 - 8)) - 0) + 16
          + 16 * exFullHdr.header.index_entry_count
          + exFullHdr.header.store_size) := by
  have h1 : Rpm.read_header (List.replicate 7 0 ++ exRpmHdr16) 1 =
      .ok ([], 24, ⟨1, [0, 0, 0, 0], 1, 4⟩) := by rfl
  have h2 : Rpm.read_full_header exRpm 0 = .ok ([], 36, exFullHdr) := by rfl
  have c1 := rpm_read_header_padding.1 (List.replicate 7 0 ++ exRpmHdr16) 1 _ h1
  have c2 := rpm_read_header_padding.2 exRpm 0 _ h2
  exact ⟨⟨h1, c1.1, (c1.2.2 (by norm_num)).1⟩, ⟨h2, c2.1⟩⟩

/-- Witness for C5: on `exFullHdr`, tag 1124 resolves to the store string
`"cpio"`, an absent tag yields the default, a type-4 entry errors, and an
offset at the store length errors. -/
theorem get_string_tag_witness :
    Rpm.get_string_tag exFullHdr 1124 Rpm.CPIO_BYTES = .ok [0x63, 0x70, 0x69, 0x6f]
    ∧ Rpm.get_string_tag exFullHdr 1125 Rpm.GZIP_BYTES = .ok Rpm.GZIP_BYTES
    ∧ Rpm.get_string_tag
        ⟨exFullHdr.header, Rpm.mapInsert (fun _ => none) 1124 ⟨1124, 4, 0, 1⟩,
         exFullHdr.store⟩ 1124 Rpm.CPIO_BYTES = .error .incorrectType
    ∧ Rpm.get_string_tag
        ⟨exFullHdr.header, Rpm.mapInsert (fun _ => none) 1124 ⟨1124, 6, 4, 1⟩,
         exFullHdr.store⟩ 1124 Rpm.CPIO_BYTES = .error .pastEnd := by
  refine ⟨?_, ?_, ?_, ?_⟩
  · have h := get_string_tag_spec.2.2.2.2.2.1 exFullHdr 1124 Rpm.CPIO_BYTES
      ⟨1124, 6, 0, 1⟩ rfl rfl (by norm_num [exFullHdr]) (by rfl)
    rw [h]
    rfl
  · exact get_string_tag_spec.2.2.1 exFullHdr rfl
  · exact get_string_tag_spec.2.2.2.1 _ 1124 Rpm.CPIO_BYTES ⟨1124, 4, 0, 1⟩ rfl
      (by norm_num)
  · exact get_string_tag_spec.2.2.2.2.1 _ 1124 Rpm.CPIO_BYTES ⟨1124, 6, 4, 1⟩ rfl rfl
      (by norm_num [exFullHdr])

namespace Db

/-- The per-character translation of `like_from_wildcard` in `db.rs`
(a Rust `match` on `char`, i.e. a chain of equality tests): `'*'` becomes
`'%'`, `'?'` becomes `'_'`, and the LIKE metacharacters `'%'`, `'_'`,
`'\\'` are escaped with a backslash; every other character is kept. -/
def wildcard_char (c : Char) : List Char :=
  if c = '*' then ['%']
  else if c = '?' then ['_']
  else if c = '%' then ['\\', '%']
  else if c = '_' then ['\\', '_']
  else if c = '\\' then ['\\', '\\']
  else [c]

/-- `like_from_wildcard` from `db.rs`: `s.chars().flat_map(..).collect()`. -/
def like_from_wildcard (s : List Char) : List Char :=
  s.flatMap wildcard_char

/-- The five characters that `like_from_wildcard` does not map to
themselves. -/
def specialChars : List Char := ['*', '?', '%', '_', '\\']

/-- Whether a character is a LIKE metacharacter that the translation
escapes (these are the characters whose image has length two). -/
def escapedChar (c : Char) : Bool := c = '%' || c = '_' || c = '\\'

/-- Formalization of the side condition of the idempotence claim: the
string contains no wildcard (`'*'`, `'?'`) and every occurrence of `'%'`,
`'_'`, `'\\'` is escaped exactly once, i.e. the string is a sequence of
ordinary characters and two-character escapes. -/
def escapedOnce : List Char → Bool
  | [] => true
  | '\\' :: c :: rest => (c = '%' || c = '_' || c = '\\') && escapedOnce rest
  | c :: rest => !(c ∈ specialChars : Bool) && escapedOnce rest

theorem like_nil : like_from_wildcard [] = [] := rfl

theorem like_cons (c : Char) (s : List Char) :
    like_from_wildcard (c :: s) = wildcard_char c ++ like_from_wildcard s := by
  simp [like_from_wildcard]

theorem like_append (s t : List Char) :
    like_from_wildcard (s ++ t) = like_from_wildcard s ++ like_from_wildcard t := by
  simp [like_from_wildcard]

/-- An ordinary character maps to itself. -/
theorem wildcard_char_id {c : Char} (h : c ∉ specialChars) :
    wildcard_char c = [c] := by
  simp only [specialChars, List.mem_cons, List.not_mem_nil, or_false,
    not_or] at h
  obtain ⟨h1, h2, h3, h4, h5⟩ := h
  simp [wildcard_char, h1, h2, h3, h4, h5]

/-- The image of any character is nonempty. -/
theorem wildcard_char_len (c : Char) : 1 ≤ (wildcard_char c).length := by
  unfold wildcard_char
  split_ifs <;> simp

/-- The translation never shortens a string. -/
theorem like_len (s : List Char) : s.length ≤ (like_from_wildcard s).length := by
  induction s with
  | nil => simp [like_nil]
  | cons c t ih =>
    rw [like_cons, List.length_append, List.length_cons]
    have := wildcard_char_len c
    omega

/-- A string with no special characters is a fixed point. -/
theorem like_fixed_of_plain {s : List Char} (h : ∀ c ∈ s, c ∉ specialChars) :
    like_from_wildcard s = s := by
  induction s with
  | nil => exact like_nil
  | cons c t ih =>
    rw [like_cons, wildcard_char_id (h c (by simp)),
      ih (fun d hd => h d (by simp [hd]))]
    rfl

/-- Conversely, a fixed point of the translation has no special
characters. -/
theorem plain_of_like_fixed :
    ∀ s : List Char, like_from_wildcard s = s → ∀ c ∈ s, c ∉ specialChars := by
  intro s
  induction s with
  | nil =>
    intro _ c hc
    cases hc
  | cons c t ih =>
    intro h d hd
    rw [like_cons] at h
    by_cases hc : c ∈ specialChars
    · exfalso
      have hlen := like_len t
      simp only [specialChars, List.mem_cons, List.not_mem_nil, or_false] at hc
      rcases hc with rfl | rfl | rfl | rfl | rfl
      · rw [show wildcard_char '*' = ['%'] from rfl] at h
        injection h with h1 h2
        exact absurd h1 (by decide)
      · rw [show wildcard_char '?' = ['_'] from rfl] at h
        injection h with h1 h2
        exact absurd h1 (by decide)
      · rw [show wildcard_char '%' = ['\\', '%'] from rfl] at h
        injection h with h1 h2
        exact absurd h1 (by decide)
      · rw [show wildcard_char '_' = ['\\', '_'] from rfl] at h
        injection h with h1 h2
        exact absurd h1 (by decide)
      · rw [show wildcard_char '\\' = ['\\', '\\'] from rfl] at h
        injection h with h1 h2
        have := congrArg List.length h2
        simp only [List.append_eq, List.length_append, List.length_cons,
          List.length_nil] at this
        omega
    · rw [wildcard_char_id hc] at h
      injection h with h1 h2
      rcases List.mem_cons.mp hd with rfl | hdt
      · exact hc
      · exact ih h2 d hdt

/-- Every special character in `s` puts an escapable character into the
image `like_from_wildcard s`. -/
theorem like_has_escapable {s : List Char} {c : Char} (hc : c ∈ s)
    (hs : c ∈ specialChars) :
    ∃ d ∈ like_from_wildcard s, escapedChar d = true := by
  have hw : ∃ d ∈ wildcard_char c, escapedChar d = true := by
    simp only [specialChars, List.mem_cons, List.not_mem_nil, or_false] at hs
    rcases hs with rfl | rfl | rfl | rfl | rfl
    · exact ⟨'%', by rw [show wildcard_char '*' = ['%'] from rfl]; simp, by decide⟩
    · exact ⟨'_', by rw [show wildcard_char '?' = ['_'] from rfl]; simp, by decide⟩
    · exact ⟨'%', by rw [show wildcard_char '%' = ['\\', '%'] from rfl]; simp,
        by decide⟩
    · exact ⟨'_', by rw [show wildcard_char '_' = ['\\', '_'] from rfl]; simp,
        by decide⟩
    · exact ⟨'\\', by rw [show wildcard_char '\\' = ['\\', '\\'] from rfl]; simp,
        by decide⟩
  obtain ⟨d, hd, hesc⟩ := hw
  exact ⟨d, List.mem_flatMap.mpr ⟨c, hc, hd⟩, hesc⟩

/-- An escapable character is special. -/
theorem escapedChar_special {c : Char} (h : escapedChar c = true) :
    c ∈ specialChars := by
  simp only [escapedChar, Bool.or_eq_true, decide_eq_true_eq] at h
  rcases h with (rfl | rfl) | rfl <;> simp [specialChars]

end Db

/-- C8: `like_from_wildcard` maps each character independently and
concatenates the results in order: `'*'` ↦ `'%'`, `'?'` ↦ `'_'`,
`'%'` ↦ `"\\%"`, `'_'` ↦ `"\\_"`, `'\\'` ↦ `"\\\\"`, and every other
character maps to itself. -/
theorem like_from_wildcard_charwise :
    Db.like_from_wildcard [] = []
  ∧ (∀ s t, Db.like_from_wildcard (s ++ t) =
      Db.like_from_wildcard s ++ Db.like_from_wildcard t)
  ∧ (∀ s, Db.like_from_wildcard ('*' :: s) = '%' :: Db.like_from_wildcard s)
  ∧ (∀ s, Db.like_from_wildcard ('?' :: s) = '_' :: Db.like_from_wildcard s)
  ∧ (∀ s, Db.like_from_wildcard ('%' :: s) =
      '\\' :: '%' :: Db.like_from_wildcard s)
  ∧ (∀ s, Db.like_from_wildcard ('_' :: s) =
      '\\' :: '_' :: Db.like_from_wildcard s)
  ∧ (∀ s, Db.like_from_wildcard ('\\' :: s) =
      '\\' :: '\\' :: Db.like_from_wildcard s)
  ∧ (∀ c s, c ∉ Db.specialChars →
      Db.like_from_wildcard (c :: s) = c :: Db.like_from_wildcard s) := by
  refine ⟨Db.like_nil, Db.like_append, ?_, ?_, ?_, ?_, ?_, ?_⟩
  · intro s
    rw [Db.like_cons]
    rfl
  · intro s
    rw [Db.like_cons]
    rfl
  · intro s
    rw [Db.like_cons]
    rfl
  · intro s
    rw [Db.like_cons]
    rfl
  · intro s
    rw [Db.like_cons]
    rfl
  · intro c s h
    rw [Db.like_cons, Db.wildcard_char_id h]
    rfl

/-- Witness for C8: the generic-character case discharged at `'a'`. -/
theorem like_from_wildcard_charwise_witness :
    Db.like_from_wildcard ['a', '*'] = ['a', '%'] := by
  have h := like_from_wildcard_charwise.2.2.2.2.2.2.2 'a' ['*'] (by decide)
  rw [h, like_from_wildcard_charwise.2.2.1]
  rfl

/-- C9 counterexample: the string `"\\%"` contains no wildcard and
escapes its one `'%'` (and no other special character occurs unescaped),
yet `like_from_wildcard` is not idempotent on it: each application
doubles the escapes. -/
theorem like_idempotent_cex :
    Db.escapedOnce ['\\', '%'] = true
    ∧ Db.like_from_wildcard (Db.like_from_wildcard ['\\', '%']) ≠
        Db.like_from_wildcard ['\\', '%'] := by
  constructor
  · rfl
  · decide

/-- C9 amended: `like_from_wildcard` is idempotent on a string exactly
when the string contains none of `'*'`, `'?'`, `'%'`, `'_'`, `'\\'`
(in particular it is not idempotent on nonempty properly-escaped
strings, whose escapes double on each application). -/
theorem like_from_wildcard_idempotent_iff :
    ∀ s : List Char,
      Db.like_from_wildcard (Db.like_from_wildcard s) = Db.like_from_wildcard s
        ↔ ∀ c ∈ s, c ∉ Db.specialChars := by
  intro s
  constructor
  · intro h c hc
    by_contra hs
    obtain ⟨d, hd, hesc⟩ := Db.like_has_escapable hc hs
    exact absurd (Db.plain_of_like_fixed _ h d hd) (fun hn =>
      hn (Db.escapedChar_special hesc))
  · intro h
    rw [Db.like_fixed_of_plain h]
    exact Db.like_fixed_of_plain h

/-- Witness for C9 (amended): idempotence evaluated on the plain string
`"abc"`. -/
theorem like_from_wildcard_idempotent_witness :
    Db.like_from_wildcard (Db.like_from_wildcard ['a', 'b', 'c']) =
      Db.like_from_wildcard ['a', 'b', 'c'] :=
  (like_from_wildcard_idempotent_iff ['a', 'b', 'c']).mpr (by decide)

namespace Http

/-- Events observable around one `checked_fetch` call and the subsequent
consumption of the response body by its caller. -/
inductive FetchEv where
  | permitAcquire
  | httpGet
  | statusCheck
  | permitRelease
  | bodyConsumed
deriving DecidableEq, Repr

/-- The straight-line body of `checked_fetch` in `http.rs` after the
permit is acquired: perform the GET (`client.get(uri)`), and on success
check the status, succeeding only for 2xx.  Returns the events emitted
and whether the function returns `Ok(response)`. -/
def checked_fetch_body (getOk statusOk : Bool) : List FetchEv × Bool :=
  if getOk then ([FetchEv.httpGet, FetchEv.statusCheck], statusOk)
  else ([FetchEv.httpGet], false)

/-- The event trace of one completed `checked_fetch` call.
`poll_acquire` first acquires one permit; `defer!(permit.release(..))`
then registers the release to run when the scope of `checked_fetch`
exits, i.e. when its future completes (returning the response, before
any of the body is consumed) or when the future is dropped.  The model
therefore appends `permitRelease` to the body's events on every exit
path. -/
def checked_fetch_trace (acquireOk getOk statusOk : Bool) :
    List FetchEv × Bool :=
  if acquireOk then
    let deferred := [FetchEv.permitRelease]
    let body := checked_fetch_body getOk statusOk
    (FetchEv.permitAcquire :: body.1 ++ deferred, body.2)
  else ([], false)

/-- A caller (`fetch_repomd`, `fetch_file`) awaits `checked_fetch` and,
on success, consumes the response body afterwards. -/
def fetch_and_consume_trace (acquireOk getOk statusOk : Bool) : List FetchEv :=
  let r := checked_fetch_trace acquireOk getOk statusOk
  if r.2 then r.1 ++ [FetchEv.bodyConsumed] else r.1

end Http

/-- C7 counterexample: in a completed successful `checked_fetch` followed
by the caller's body consumption, the permit-release event occurs
strictly before the body is consumed — the permit is released when
`checked_fetch` returns the response, not when the body has been fully
consumed (the `defer!` guard lives only for the scope of
`checked_fetch`). -/
theorem checked_fetch_release_cex :
    Http.fetch_and_consume_trace true true true =
      [Http.FetchEv.permitAcquire, Http.FetchEv.httpGet, Http.FetchEv.statusCheck,
       Http.FetchEv.permitRelease, Http.FetchEv.bodyConsumed]
    ∧ List.indexOf Http.FetchEv.permitRelease
          (Http.fetch_and_consume_trace true true true)
        < List.indexOf Http.FetchEv.bodyConsumed
          (Http.fetch_and_consume_trace true true true) := by
  constructor
  · rfl
  · decide

/-- C7 amended: exactly one permit is acquired and it is held while the
GET and the status check run; it is released when `checked_fetch`'s scope
exits — when its future completes returning the response, or when the
future is dropped — hence before the caller consumes the response body. -/
theorem checked_fetch_permit_window :
    ∀ acquireOk getOk statusOk : Bool,
      (Http.fetch_and_consume_trace acquireOk getOk statusOk).count
          Http.FetchEv.permitRelease =
        (Http.fetch_and_consume_trace acquireOk getOk statusOk).count
          Http.FetchEv.permitAcquire
      ∧ (Http.fetch_and_consume_trace acquireOk getOk statusOk).count
          Http.FetchEv.permitAcquire ≤ 1
      ∧ (Http.FetchEv.httpGet ∈ Http.fetch_and_consume_trace acquireOk getOk statusOk →
          List.indexOf Http.FetchEv.permitAcquire
              (Http.fetch_and_consume_trace acquireOk getOk statusOk)
            < List.indexOf Http.FetchEv.httpGet
              (Http.fetch_and_consume_trace acquireOk getOk statusOk)
          ∧ List.indexOf Http.FetchEv.httpGet
              (Http.fetch_and_consume_trace acquireOk getOk statusOk)
            < List.indexOf Http.FetchEv.permitRelease
              (Http.fetch_and_consume_trace acquireOk getOk statusOk))
      ∧ (Http.FetchEv.bodyConsumed ∈
            Http.fetch_and_consume_trace acquireOk getOk statusOk →
          List.indexOf Http.FetchEv.permitRelease
              (Http.fetch_and_consume_trace acquireOk getOk statusOk)
            < List.indexOf Http.FetchEv.bodyConsumed
              (Http.fetch_and_consume_trace acquireOk getOk statusOk)) := by
  intro acquireOk getOk statusOk
  cases acquireOk <;> cases getOk <;> cases statusOk <;> exact (by decide)

/-- Witness for C7 (amended): the permit-window properties evaluated on
the fully-successful trace. -/
theorem checked_fetch_permit_window_witness :
    Http.FetchEv.bodyConsumed ∈ Http.fetch_and_consume_trace true true true
    ∧ List.indexOf Http.FetchEv.permitRelease
          (Http.fetch_and_consume_trace true true true)
        < List.indexOf Http.FetchEv.bodyConsumed
          (Http.fetch_and_consume_trace true true true) :=
  ⟨by decide, (checked_fetch_permit_window true true true).2.2.2 (by decide)⟩

namespace Glue

/-- `repomd::Checksum`: an algorithm name and a hex digest. -/
structure Checksum where
  tpe : String
  hexdigest : String
deriving DecidableEq, Repr

/-- `Decoder::from_href` (`decoders.rs`): an href ending in `".xz"`
selects the xz decoder whose local path is the href with the last three
characters stripped; otherwise the identity decoder with the href itself
as path. -/
def decoder_path (href : String) : String :=
  if href.endsWith ".xz" then href.dropRight 3 else href

/-- The external effects `fetch_file` interacts with, fixed for one call:
the outcome of `hashes::hexdigest_path(path, algo)` on the current local
file (`some h` for `Ok(h)`, `none` for any error — file absent,
unreadable, or unsupported algorithm), and whether URI parsing,
`create_file_all`, `checked_fetch` and `decode_response` succeed. -/
structure FetchEnv where
  hexdigest_result : Option String
  uriOk : Bool
  createOk : Bool
  fetchOk : Bool
  decodeOk : Bool

/-- What a `fetch_file` call did to the outside world: whether
`create_file_all` re-created the local file, and whether `checked_fetch`
was invoked. -/
structure FetchActions where
  created : Bool
  fetched : Bool
deriving DecidableEq, Repr

/-- Errors of `fetch_file`. -/
inductive FetchErr where
  | malformedUri
  | createFailed
  | fetchFailed
  | decodeFailed
deriving DecidableEq, Repr

/-- The fall-through continuation of `fetch_file` when the cached file
does not hash to the expected digest: parse the URI
(`repo_uri + "/" + href`), re-create the file with `create_file_all`,
perform `checked_fetch`, and decode the response into the file, returning
the decoder's path. -/
def fetch_file_miss (env : FetchEnv) (path : String) :
    Except FetchErr String × FetchActions :=
  if env.uriOk = false then (.error .malformedUri, ⟨false, false⟩)
  else if env.createOk = false then (.error .createFailed, ⟨false, false⟩)
  else if env.fetchOk = false then (.error .fetchFailed, ⟨true, true⟩)
  else if env.decodeOk = false then (.error .decodeFailed, ⟨true, true⟩)
  else (.ok path, ⟨true, true⟩)

/-- `fetch_file` from `bin/index-repo.rs`: hash the decoder's local path;
if the digest computes (`if let Ok(hexdigest) = ..`) and equals
`open_checksum.hexdigest`, return the path at once (no fetch); in every
other case fall through to `fetch_file_miss`. -/
def fetch_file (env : FetchEnv) (open_checksum : Checksum) (href : String) :
    Except FetchErr String × FetchActions :=
  let path := decoder_path href
  match env.hexdigest_result with
  | some hexdigest =>
    if hexdigest = open_checksum.hexdigest then (.ok path, ⟨false, false⟩)
    else fetch_file_miss env path
  | none => fetch_file_miss env path

/-- Whenever the miss path returns the path successfully, it has fetched. -/
theorem fetch_file_miss_fetched {env : FetchEnv} {path : String}
    (h : (fetch_file_miss env path).1 = .ok path) :
    (fetch_file_miss env path).2.fetched = true := by
  unfold fetch_file_miss at h ⊢
  split_ifs at h ⊢ <;> first | rfl | cases h

/-- When URI parsing, file creation, fetch and decode all succeed, the
miss path re-creates the file, fetches, and returns the path. -/
theorem fetch_file_miss_success {env : FetchEnv} {path : String}
    (huri : env.uriOk = true) (hcreate : env.createOk = true)
    (hfetch : env.fetchOk = true) (hdecode : env.decodeOk = true) :
    fetch_file_miss env path = (.ok path, ⟨true, true⟩) := by
  unfold fetch_file_miss
  rw [huri, hcreate, hfetch, hdecode]
  rfl

end Glue

/-- C6: `fetch_file` returns the decoder's local path without performing
any HTTP fetch exactly when hashing the existing local file succeeds and
yields `open_checksum`'s hex digest; in every other hash outcome (file
absent, unreadable, unsupported algorithm, or digest mismatch) the
mismatch is not an error: the file is re-created, the artifact fetched
and decoded into it, and the same path returned. -/
theorem fetch_file_cache_policy :
    ∀ env cks href,
      (env.hexdigest_result = some cks.hexdigest
        ↔ ((Glue.fetch_file env cks href).1 = .ok (Glue.decoder_path href)
            ∧ (Glue.fetch_file env cks href).2.fetched = false))
    ∧ (env.hexdigest_result ≠ some cks.hexdigest →
        env.uriOk = true → env.createOk = true → env.fetchOk = true →
        env.decodeOk = true →
        (Glue.fetch_file env cks href).1 = .ok (Glue.decoder_path href)
        ∧ (Glue.fetch_file env cks href).2.created = true
        ∧ (Glue.fetch_file env cks href).2.fetched = true) := by
  intro env cks href
  constructor
  · constructor
    · intro hmatch
      simp only [Glue.fetch_file, hmatch, if_pos rfl]
      exact ⟨rfl, rfl⟩
    · intro hok
      obtain ⟨h1, h2⟩ := hok
      cases hh : env.hexdigest_result with
      | none =>
        simp only [Glue.fetch_file, hh] at h1 h2
        rw [Glue.fetch_file_miss_fetched h1] at h2
        cases h2
      | some hexdigest =>
        by_cases heq : hexdigest = cks.hexdigest
        · rw [heq]
        · exfalso
          simp only [Glue.fetch_file, hh, if_neg heq] at h1 h2
          rw [Glue.fetch_file_miss_fetched h1] at h2
          cases h2
  · intro hne huri hcreate hfetch hdecode
    have hm := @Glue.fetch_file_miss_success env (Glue.decoder_path href)
      huri hcreate hfetch hdecode
    cases hh : env.hexdigest_result with
    | none =>
      simp only [Glue.fetch_file, hh, hm]
      exact ⟨trivial, trivial, trivial⟩
    | some hexdigest =>
      have heq : hexdigest ≠ cks.hexdigest := by
        intro he
        exact hne (by rw [hh, he])
      simp only [Glue.fetch_file, hh, if_neg heq, hm]
      exact ⟨trivial, trivial, trivial⟩

/-- Witness for C6: a cache hit performs no fetch; a digest mismatch
refetches, re-creates the file, and returns the same path. -/
theorem fetch_file_cache_policy_witness :
    (Glue.fetch_file ⟨some "d1", true, true, true, true⟩ ⟨"sha256", "d1"⟩
        "repodata/primary.sqlite.xz").1 =
      .ok (Glue.decoder_path "repodata/primary.sqlite.xz")
    ∧ (Glue.fetch_file ⟨some "d1", true, true, true, true⟩ ⟨"sha256", "d1"⟩
        "repodata/primary.sqlite.xz").2.fetched = false
    ∧ (Glue.fetch_file ⟨some "bad", true, true, true, true⟩ ⟨"sha256", "d1"⟩
        "repodata/primary.sqlite.xz").1 =
      .ok (Glue.decoder_path "repodata/primary.sqlite.xz")
    ∧ (Glue.fetch_file ⟨some "bad", true, true, true, true⟩ ⟨"sha256", "d1"⟩
        "repodata/primary.sqlite.xz").2.created = true
    ∧ (Glue.fetch_file ⟨some "bad", true, true, true, true⟩ ⟨"sha256", "d1"⟩
        "repodata/primary.sqlite.xz").2.fetched = true := by
  have h1 := (fetch_file_cache_policy ⟨some "d1", true, true, true, true⟩
    ⟨"sha256", "d1"⟩ "repodata/primary.sqlite.xz").1.mp rfl
  have h2 := (fetch_file_cache_policy ⟨some "bad", true, true, true, true⟩
    ⟨"sha256", "d1"⟩ "repodata/primary.sqlite.xz").2 (by decide) rfl rfl rfl rfl
  exact ⟨h1.1, h1.2, h2.1, h2.2.1, h2.2.2⟩

namespace Db

/-- A row of the `files` table. -/
structure FileRow where
  id : Nat
  package_id : Int
  name : String
deriving DecidableEq, Repr

/-- A row of the `strings` table. -/
structure StringRow where
  id : Nat
  name : String
deriving DecidableEq, Repr

/-- A row of the `elf_symbols` table. -/
structure ElfSymbolRow where
  id : Nat
  file_id : Nat
  name_id : Nat
  st_info : Int
  st_other : Int
deriving DecidableEq, Repr

/-- The SQLite database state visible to the `db.rs` persistence path. -/
structure DbState where
  files : List FileRow
  strings : List StringRow
  elf_symbols : List ElfSymbolRow
deriving DecidableEq, Repr

/-- Errors of the persistence path: `sqlError` is a failure injected at a
SQL statement by the environment, the rest are the `bail!`/`format_err!`
paths of `db.rs` (`Could not find a file`, `Query has returned an unknown
string`, `Failed to persist all strings`, `persist_strings() has returned
an unknown string`). -/
inductive DbErr where
  | sqlError
  | notFound
  | unknownString
  | persistStringsFailed
  | missingMapping
deriving DecidableEq, Repr

/-- The rowid SQLite assigns to a fresh insert: one more than the largest
existing rowid. -/
def nextRowId (ids : List Nat) : Nat := ids.foldr max 0 + 1

/-- Statement: `INSERT INTO files (package_id, name) VALUES (..)`.
Every statement first consults the fault oracle `failAt` at the current
statement index `k` (a failure leaves the database unchanged — the
statement never ran) and bumps the index. -/
def insert_file_stmt (failAt : Nat → Bool) (package_id : Int) (name : String)
    (st : DbState) (k : Nat) : Except DbErr Unit × DbState × Nat :=
  if failAt k then (.error .sqlError, st, k + 1)
  else (.ok (), { st with files := st.files ++
      [⟨nextRowId (st.files.map FileRow.id), package_id, name⟩] }, k + 1)

/-- Statement: `SELECT id FROM files WHERE package_id = .. AND name = ..
LIMIT 1` (rows come back in rowid order; `LIMIT 1` keeps the first). -/
def select_file_stmt (failAt : Nat → Bool) (package_id : Int) (name : String)
    (st : DbState) (k : Nat) : Except DbErr (Option Nat) × DbState × Nat :=
  if failAt k then (.error .sqlError, st, k + 1)
  else (.ok ((st.files.filter
      (fun r => r.package_id == package_id && r.name == name)).head?.map
        FileRow.id), st, k + 1)

/-- `persist_file` from `db.rs` (`insert_into_returning_rowid!`): insert,
re-query the rowid, and fail with `Could not find a file` if the
re-query comes back empty. -/
def persist_file (failAt : Nat → Bool) (package_id : Int) (name : String)
    (st : DbState) (k : Nat) : Except DbErr Nat × DbState × Nat :=
  match insert_file_stmt failAt package_id name st k with
  | (.error e, st, k) => (.error e, st, k)
  | (.ok _, st, k) =>
    match select_file_stmt failAt package_id name st k with
    | (.error e, st, k) => (.error e, st, k)
    | (.ok none, st, k) => (.error .notFound, st, k)
    | (.ok (some id), st, k) => (.ok id, st, k)

/-- Worker for `chunksOf999`, structurally recursive on a fuel that
bounds the number of chunks (the list length suffices). -/
def chunksGo : Nat → List String → List (List String)
  | _, [] => []
  | 0, _ :: _ => []
  | fuel + 1, x :: xs => (x :: xs).take 999 :: chunksGo fuel ((x :: xs).drop 999)

/-- `Vec::chunks(999)`: the chunking of the string list by SQLite's
parameter limit.  `l.length` steps of fuel always suffice, since every
step consumes at least one element. -/
def chunksOf999 (l : List String) : List (List String) := chunksGo l.length l

/-- The row loop of `query_strings`: each returned `(id, name)` row must
still be in the remaining set (`strings.take(..)`), is removed from it,
and its mapping is recorded; an unknown name is the
`Query has returned an unknown string` bail. -/
def applyRows : List StringRow → List String × List (String × Nat) →
    Option (List String × List (String × Nat))
  | [], acc => some acc
  | r :: rs, (remaining, mappings) =>
    if remaining.contains r.name then
      applyRows rs (remaining.erase r.name, mappings ++ [(r.name, r.id)])
    else none

/-- Statement: `SELECT id, name FROM strings WHERE name IN (chunk)`,
followed by the in-memory row loop. -/
def select_strings_stmt (failAt : Nat → Bool) (chunk : List String)
    (acc : List String × List (String × Nat)) (st : DbState) (k : Nat) :
    Except DbErr (List String × List (String × Nat)) × DbState × Nat :=
  if failAt k then (.error .sqlError, st, k + 1)
  else
    match applyRows (st.strings.filter (fun r => chunk.contains r.name)) acc with
    | none => (.error .unknownString, st, k + 1)
    | some acc2 => (.ok acc2, st, k + 1)

/-- The chunk loop of `query_strings`. -/
def query_strings_chunks (failAt : Nat → Bool) :
    List (List String) → List String × List (String × Nat) → DbState → Nat →
    Except DbErr (List String × List (String × Nat)) × DbState × Nat
  | [], acc, st, k => (.ok acc, st, k)
  | c :: cs, acc, st, k =>
    match select_strings_stmt failAt c acc st k with
    | (.error e, st, k) => (.error e, st, k)
    | (.ok acc2, st, k) => query_strings_chunks failAt cs acc2 st k

/-- `query_strings` from `db.rs`: chunk the current string set and run
one `SELECT .. IN (..)` per chunk, moving found names from the set into
the `name → id` map. -/
def query_strings (failAt : Nat → Bool) (strs : List String)
    (mappings : List (String × Nat)) (st : DbState) (k : Nat) :
    Except DbErr (List String × List (String × Nat)) × DbState × Nat :=
  query_strings_chunks failAt (chunksOf999 strs) (strs, mappings) st k

/-- The multi-row `INSERT INTO strings (name) VALUES (..), ..`: each new
row gets the next rowid. -/
def insert_strings_rows (st : DbState) (names : List String) : DbState :=
  names.foldl (fun st n => { st with strings := st.strings ++
    [⟨nextRowId (st.strings.map StringRow.id), n⟩] }) st

/-- Statement: the multi-row strings insert. -/
def insert_strings_stmt (failAt : Nat → Bool) (names : List String)
    (st : DbState) (k : Nat) : Except DbErr Unit × DbState × Nat :=
  if failAt k then (.error .sqlError, st, k + 1)
  else (.ok (), insert_strings_rows st names, k + 1)

/-- `persist_strings` from `db.rs`: query, insert whatever is missing in
one multi-row statement, re-query, and fail with
`Failed to persist all strings` if something is still missing. -/
def persist_strings (failAt : Nat → Bool) (strs : List String) (st : DbState)
    (k : Nat) : Except DbErr (List (String × Nat)) × DbState × Nat :=
  match query_strings failAt strs [] st k with
  | (.error e, st, k) => (.error e, st, k)
  | (.ok (remaining, mappings), st, k) =>
    if remaining.isEmpty then (.ok mappings, st, k)
    else
      match insert_strings_stmt failAt remaining st k with
      | (.error e, st, k) => (.error e, st, k)
      | (.ok _, st, k) =>
        match query_strings failAt remaining mappings st k with
        | (.error e, st, k) => (.error e, st, k)
        | (.ok (remaining2, mappings2), st, k) =>
          if remaining2.isEmpty then (.ok mappings2, st, k)
          else (.error .persistStringsFailed, st, k)

/-- `HashSet::from_iter` over the symbol names, in first-occurrence
order (the Rust set iterates in an unspecified order; the model fixes
this one). -/
def dedupFirst (l : List String) : List String :=
  l.foldl (fun acc n => if acc.contains n then acc else acc ++ [n]) []

/-- `mappings.get(name)`. -/
def lookupMapping (m : List (String × Nat)) (n : String) : Option Nat :=
  (m.find? (fun p => p.1 == n)).map Prod.snd

/-- The multi-row `INSERT INTO elf_symbols (..) VALUES ..`. -/
def insert_symbols_rows (st : DbState) (file_id : Nat)
    (vals : List (Nat × Int × Int)) : DbState :=
  vals.foldl (fun st v => { st with elf_symbols := st.elf_symbols ++
    [⟨nextRowId (st.elf_symbols.map ElfSymbolRow.id), file_id,
      v.1, v.2.1, v.2.2⟩] }) st

/-- Statement: the multi-row ELF-symbols insert. -/
def insert_symbols_stmt (failAt : Nat → Bool) (file_id : Nat)
    (vals : List (Nat × Int × Int)) (st : DbState) (k : Nat) :
    Except DbErr Unit × DbState × Nat :=
  if failAt k then (.error .sqlError, st, k + 1)
  else (.ok (), insert_symbols_rows st file_id vals, k + 1)

/-- `persist_elf_symbols` from `db.rs`: persist the `File` row, intern
the distinct symbol names, map each symbol to its string id (failing with
`persist_strings() has returned an unknown string` on a miss), and insert
the symbol rows in one statement.  Every statement runs directly on the
connection — there is no `BEGIN`/`COMMIT` anywhere in `db.rs` — so the
state reached by the executed prefix is what remains on error. -/
def persist_elf_symbols (failAt : Nat → Bool) (package_id : Int)
    (file_name : String) (symbols : List (String × Int × Int)) (st : DbState)
    (k : Nat) : Except DbErr Unit × DbState × Nat :=
  match persist_file failAt package_id file_name st k with
  | (.error e, st, k) => (.error e, st, k)
  | (.ok file_id, st, k) =>
    match persist_strings failAt (dedupFirst (symbols.map (fun x => x.1))) st k with
    | (.error e, st, k) => (.error e, st, k)
    | (.ok mappings, st, k) =>
      match symbols.mapM (fun x => (lookupMapping mappings x.1).map
          (fun i => (i, x.2.1, x.2.2))) with
      | none => (.error .missingMapping, st, k)
      | some vals => insert_symbols_stmt failAt file_id vals st k

/-- A `SELECT .. IN` statement never changes the database. -/
theorem select_strings_stmt_state (failAt : Nat → Bool) (c : List String)
    (acc : List String × List (String × Nat)) (st : DbState) (k : Nat) :
    (select_strings_stmt failAt c acc st k).2.1 = st := by
  unfold select_strings_stmt
  split_ifs
  · rfl
  · cases applyRows (st.strings.filter (fun r => c.contains r.name)) acc <;> rfl

/-- The chunked query loop never changes the database. -/
theorem query_strings_chunks_state (failAt : Nat → Bool) :
    ∀ (cs : List (List String)) (acc : List String × List (String × Nat))
      (st : DbState) (k : Nat),
      (query_strings_chunks failAt cs acc st k).2.1 = st := by
  intro cs
  induction cs with
  | nil =>
    intro acc st k
    rfl
  | cons c cs ih =>
    intro acc st k
    simp only [query_strings_chunks]
    rcases h : select_strings_stmt failAt c acc st k with ⟨r, st2, k2⟩
    have hst : st2 = st := by
      have := select_strings_stmt_state failAt c acc st k
      rw [h] at this
      exact this
    cases r with
    | error e =>
      dsimp only
      exact hst
    | ok acc2 =>
      dsimp only
      rw [ih acc2 st2 k2, hst]

/-- `query_strings` never changes the database. -/
theorem query_strings_state (failAt : Nat → Bool) (strs : List String)
    (mappings : List (String × Nat)) (st : DbState) (k : Nat) :
    (query_strings failAt strs mappings st k).2.1 = st :=
  query_strings_chunks_state failAt (chunksOf999 strs) (strs, mappings) st k

/-- The multi-row strings insert only touches the `strings` table. -/
theorem insert_strings_rows_files :
    ∀ (names : List String) (st : DbState),
      (insert_strings_rows st names).files = st.files := by
  intro names
  induction names with
  | nil =>
    intro st
    rfl
  | cons n ns ih =>
    intro st
    have hstep : insert_strings_rows st (n :: ns) =
        insert_strings_rows ({ st with strings := st.strings ++
          [⟨nextRowId (st.strings.map StringRow.id), n⟩] }) ns := rfl
    rw [hstep, ih]

/-- `persist_strings` only touches the `strings` table. -/
theorem persist_strings_files (failAt : Nat → Bool) (strs : List String)
    (st : DbState) (k : Nat) :
    ((persist_strings failAt strs st k).2.1).files = st.files := by
  unfold persist_strings
  rcases h1 : query_strings failAt strs [] st k with ⟨r1, st1, k1⟩
  have hs1 : st1 = st := by
    have := query_strings_state failAt strs [] st k
    rw [h1] at this
    exact this
  cases r1 with
  | error e =>
    dsimp only
    rw [hs1]
  | ok acc =>
    rcases acc with ⟨remaining, mappings⟩
    dsimp only
    split_ifs with hrem
    · rw [hs1]
    · unfold insert_strings_stmt
      split_ifs with hfail
      · rw [hs1]
      · dsimp only
        rcases h2 : query_strings failAt remaining mappings
            (insert_strings_rows st1 remaining) (k1 + 1) with ⟨r2, st2, k2⟩
        have hs2 : st2 = insert_strings_rows st1 remaining := by
          have := query_strings_state failAt remaining mappings
            (insert_strings_rows st1 remaining) (k1 + 1)
          rw [h2] at this
          exact this
        cases r2 with
        | error e =>
          dsimp only
          rw [hs2, insert_strings_rows_files remaining st1, hs1]
        | ok acc2 =>
          rcases acc2 with ⟨remaining2, mappings2⟩
          dsimp only
          split_ifs <;>
            rw [hs2, insert_strings_rows_files remaining st1, hs1]

/-- The multi-row symbols insert only touches the `elf_symbols` table. -/
theorem insert_symbols_rows_files :
    ∀ (vals : List (Nat × Int × Int)) (st : DbState) (file_id : Nat),
      (insert_symbols_rows st file_id vals).files = st.files := by
  intro vals
  induction vals with
  | nil =>
    intro st file_id
    rfl
  | cons v vs ih =>
    intro st file_id
    have hstep : insert_symbols_rows st file_id (v :: vs) =
        insert_symbols_rows ({ st with elf_symbols := st.elf_symbols ++
          [⟨nextRowId (st.elf_symbols.map ElfSymbolRow.id), file_id,
            v.1, v.2.1, v.2.2⟩] }) file_id vs := rfl
    rw [hstep, ih]

/-- Evaluation of the file-insert statement when it is not failed. -/
theorem insert_file_stmt_ok (failAt : Nat → Bool) (package_id : Int)
    (name : String) (st : DbState) (k : Nat) (h0 : failAt k = false) :
    insert_file_stmt failAt package_id name st k =
      (.ok (),
       ⟨st.files ++ [⟨nextRowId (st.files.map FileRow.id), package_id, name⟩],
        st.strings, st.elf_symbols⟩, k + 1) := by
  unfold insert_file_stmt
  rw [h0]
  rfl

/-- Evaluation of the file-select statement when it is not failed. -/
theorem select_file_stmt_run (failAt : Nat → Bool) (package_id : Int)
    (name : String) (st : DbState) (k : Nat) (h0 : failAt k = false) :
    select_file_stmt failAt package_id name st k =
      (.ok ((st.files.filter
        (fun r => r.package_id == package_id && r.name == name)).head?.map
          FileRow.id), st, k + 1) := by
  unfold select_file_stmt
  rw [h0]
  rfl

/-- A successful `persist_file` (both its statements run) appends exactly
the new `File` row and returns some rowid. -/
theorem persist_file_ok (failAt : Nat → Bool) (package_id : Int) (name : String)
    (st : DbState) (k : Nat) (h0 : failAt k = false) (h1 : failAt (k + 1) = false) :
    ∃ fid, persist_file failAt package_id name st k =
      (.ok fid,
       ⟨st.files ++ [⟨nextRowId (st.files.map FileRow.id), package_id, name⟩],
        st.strings, st.elf_symbols⟩, k + 2) := by
  have hi := insert_file_stmt_ok failAt package_id name st k h0
  unfold persist_file
  rw [hi]
  dsimp only
  have hs := select_file_stmt_run failAt package_id name
    (⟨st.files ++ [⟨nextRowId (st.files.map FileRow.id), package_id, name⟩],
      st.strings, st.elf_symbols⟩ : DbState) (k + 1) h1
  rw [hs]
  dsimp only
  set newRow : FileRow :=
    (⟨nextRowId (st.files.map FileRow.id), package_id, name⟩ : FileRow) with hnr
  set fl : List FileRow := (st.files ++ [newRow]).filter
    (fun r => r.package_id == package_id && r.name == name) with hfl
  have hmem : newRow ∈ fl := by
    rw [hfl]
    apply List.mem_filter.mpr
    constructor
    · exact List.mem_append_right _ (List.mem_singleton.mpr rfl)
    · rw [hnr]
      simp
  rcases hh : fl.head? with _ | row
  · exfalso
    have hnil : fl = [] := by
      cases hc : fl with
      | nil => rfl
      | cons x xs =>
        rw [hc] at hh
        cases hh
    rw [hnil] at hmem
    cases hmem
  · refine ⟨row.id, ?_⟩
    rfl

/-- Every rowid in a table is at most the running maximum. -/
theorem mem_le_foldr_max : ∀ (l : List Nat) (x : Nat), x ∈ l → x ≤ l.foldr max 0 := by
  intro l
  induction l with
  | nil =>
    intro x hx
    cases hx
  | cons a as ih =>
    intro x hx
    rcases List.mem_cons.mp hx with rfl | hxs
    · simp only [List.foldr_cons]
      exact Nat.le_max_left _ _
    · have := ih x hxs
      simp only [List.foldr_cons]
      omega

/-- The freshly inserted `File` row is not a pre-existing row: its rowid
exceeds every rowid already in the table. -/
theorem new_file_row_not_mem (st : DbState) (package_id : Int) (name : String) :
    (⟨nextRowId (st.files.map FileRow.id), package_id, name⟩ : FileRow)
      ∉ st.files := by
  intro hmem
  have hid : nextRowId (st.files.map FileRow.id) ∈ st.files.map FileRow.id :=
    List.mem_map.mpr ⟨_, hmem, rfl⟩
  have := mem_le_foldr_max _ _ hid
  unfold nextRowId at this
  omega

end Db

/-- C1 counterexample: with the empty database, one symbol `("puts",0,0)`
and a SQL engine that fails exactly the final `elf_symbols` insert
(statement index 5), `persist_elf_symbols` returns an error yet the
database state differs from the initial one — the `File` row and the
interned `String` row persist, because `db.rs` opens no transaction. -/
theorem persist_elf_symbols_cex :
    (Db.persist_elf_symbols (fun k => k == 5) 1 "/usr/bin/hello"
        [("puts", 0, 0)] ⟨[], [], []⟩ 0).1 = .error .sqlError
    ∧ (Db.persist_elf_symbols (fun k => k == 5) 1 "/usr/bin/hello"
        [("puts", 0, 0)] ⟨[], [], []⟩ 0).2.1 ≠ (⟨[], [], []⟩ : Db.DbState) := by
  constructor
  · rfl
  · decide

/-- C1 amended: `persist_elf_symbols` runs its statements directly on the
connection with no enclosing transaction, so its effects are not rolled
back on error: whenever the two `persist_file` statements succeed and the
call nevertheless returns an error, the freshly inserted `File` row —
whose rowid is new, so it was not present before the call — remains in
the database state. -/
theorem persist_elf_symbols_no_rollback :
    ∀ (failAt : Nat → Bool) (package_id : Int) (file_name : String)
      (symbols : List (String × Int × Int)) (st : Db.DbState) (k : Nat)
      (e : Db.DbErr),
      failAt k = false → failAt (k + 1) = false →
      (Db.persist_elf_symbols failAt package_id file_name symbols st k).1 =
        .error e →
      (⟨Db.nextRowId (st.files.map Db.FileRow.id), package_id, file_name⟩ :
          Db.FileRow)
        ∈ ((Db.persist_elf_symbols failAt package_id file_name symbols st k).2.1).files
      ∧ (⟨Db.nextRowId (st.files.map Db.FileRow.id), package_id, file_name⟩ :
          Db.FileRow) ∉ st.files := by
  intro failAt package_id file_name symbols st k e h0 h1 herr
  obtain ⟨fid, hpf⟩ := Db.persist_file_ok failAt package_id file_name st k h0 h1
  refine ⟨?_, Db.new_file_row_not_mem st package_id file_name⟩
  unfold Db.persist_elf_symbols at herr ⊢
  rw [hpf] at herr ⊢
  dsimp only at herr ⊢
  rcases hps : Db.persist_strings failAt
      (Db.dedupFirst (symbols.map (fun x => x.1)))
      (⟨st.files ++
          [⟨Db.nextRowId (st.files.map Db.FileRow.id), package_id, file_name⟩],
        st.strings, st.elf_symbols⟩ : Db.DbState) (k + 2) with ⟨r1, st1, k1⟩
  have hfiles : st1.files = st.files ++
      [⟨Db.nextRowId (st.files.map Db.FileRow.id), package_id, file_name⟩] := by
    have := Db.persist_strings_files failAt
      (Db.dedupFirst (symbols.map (fun x => x.1)))
      (⟨st.files ++
          [⟨Db.nextRowId (st.files.map Db.FileRow.id), package_id, file_name⟩],
        st.strings, st.elf_symbols⟩ : Db.DbState) (k + 2)
    rw [hps] at this
    exact this
  rw [hps] at herr ⊢
  cases r1 with
  | error e1 =>
    dsimp only
    rw [hfiles]
    exact List.mem_append_right _ (List.mem_singleton.mpr rfl)
  | ok mappings =>
    dsimp only at herr ⊢
    cases hmm : symbols.mapM (fun x =>
        (Db.lookupMapping mappings x.1).map (fun i => (i, x.2.1, x.2.2))) with
    | none =>
      rw [hmm] at herr
      dsimp only
      rw [hfiles]
      exact List.mem_append_right _ (List.mem_singleton.mpr rfl)
    | some vals =>
      rw [hmm] at herr
      dsimp only at herr ⊢
      unfold Db.insert_symbols_stmt at herr ⊢
      split_ifs at herr ⊢ with hf
      dsimp only
      rw [hfiles]
      exact List.mem_append_right _ (List.mem_singleton.mpr rfl)

/-- Witness for C1 (amended): the no-rollback property evaluated on the
concrete failing run of the counterexample — the `File` row with rowid 1
is present after the failed call and was absent before. -/
theorem persist_elf_symbols_no_rollback_witness :
    (⟨1, 1, "/usr/bin/hello"⟩ : Db.FileRow)
        ∈ ((Db.persist_elf_symbols (fun k => k == 5) 1 "/usr/bin/hello"
            [("puts", 0, 0)] ⟨[], [], []⟩ 0).2.1).files
    ∧ (⟨1, 1, "/usr/bin/hello"⟩ : Db.FileRow) ∉ ([] : List Db.FileRow) := by
  have h := persist_elf_symbols_no_rollback (fun k => k == 5) 1 "/usr/bin/hello"
    [("puts", 0, 0)] ⟨[], [], []⟩ 0 .sqlError rfl rfl (by rfl)
  exact h

end IndexRepo
